import Mathlib

/-!
The programs `xgrind_gpu` of the obscurity repository: bit-packing codec, candidate
generator and grind engine.

A shallow embedding of `keygrinder/xgrind_gpu.c` (the full-32-bit program) and
`xgrind/xgrind_gpu.c` (the top-N-bit program), with theorems about their
bit-packing codec, seeding routine, grind loop and front ends.

Conventions of the embedding:

* `unsigned char`, `char`, `uint32_t`, `uint64_t` and `size_t` values are natural
  numbers; every C operation that can leave the range of its type is followed by an
  explicit `% 2 ^ w` (`size_t` is 64 bits wide).
* a byte buffer is a `List Nat`; reading or writing a byte outside the buffer is a
  fault, modelled by `none`.
* a C string is the list of the character codes before its terminating NUL.
* the external batch-search collaborator (`gpu_search_batch`) is a parameter.
-/

namespace Obscurity

/-! ## Machine constants -/

/-- Modulus of `size_t` and `uint64_t` arithmetic. -/
def SIZE_MOD : Nat := 2 ^ 64

/-- Modulus of `uint32_t` arithmetic. -/
def U32_MOD : Nat := 2 ^ 32

/-- The constant `GPU_BATCH_SIZE` of both programs. -/
@[irreducible]
def GPU_BATCH_SIZE : Nat := 16384

/-! ## Bit packing (keygrinder/xgrind_gpu.c, lines 160-201) -/

/-- The `for (int i = 0; i < 32; i++)` loop of `get_32_bits`; the first argument is the
number of iterations left, `i` the loop counter and `result` the accumulator. -/
def get_32_bits_loop (data : List Nat) (bit_pos total_bits : Nat) :
    Nat → Nat → Nat → Option Nat
  | 0, _, result => some result
  | n + 1, i, result =>
    let current_bit := (bit_pos + i) % SIZE_MOD
    if current_bit ≥ total_bits then
      some ((result <<< (32 - i)) % U32_MOD)
    else
      let byte_idx := current_bit / 8
      let bit_idx := 7 - current_bit % 8
      match data[byte_idx]? with
      | none => none
      | some byte =>
        let bit := (byte >>> bit_idx) &&& 1
        get_32_bits_loop data bit_pos total_bits n (i + 1)
          (((result <<< 1) % U32_MOD) ||| bit)

/-- The function `get_32_bits(data, len, chunk_index)`. -/
def get_32_bits (data : List Nat) (len chunk_index : Nat) : Option Nat :=
  let bit_pos := (chunk_index * 32) % SIZE_MOD
  let total_bits := (len * 8) % SIZE_MOD
  if bit_pos ≥ total_bits then some 0
  else get_32_bits_loop data bit_pos total_bits 32 0 0

/-- The `for (int i = 0; i < 32; i++)` loop of `put_32_bits`. -/
def put_32_bits_loop (total_bits bit_pos v : Nat) :
    Nat → Nat → List Nat → Option (List Nat)
  | 0, _, out => some out
  | n + 1, i, out =>
    let current_bit := (bit_pos + i) % SIZE_MOD
    if current_bit ≥ total_bits then some out
    else
      let byte_idx := current_bit / 8
      let bit_idx := 7 - current_bit % 8
      let bit := (v >>> (31 - i)) &&& 1
      if bit ≠ 0 then
        match out[byte_idx]? with
        | none => none
        | some b =>
          put_32_bits_loop total_bits bit_pos v n (i + 1)
            (out.set byte_idx ((b ||| ((1 <<< bit_idx) % 256)) % 256))
      else
        put_32_bits_loop total_bits bit_pos v n (i + 1) out

/-- The function `put_32_bits(out, total_bits, chunk_index, v)`. -/
def put_32_bits (out : List Nat) (total_bits chunk_index v : Nat) : Option (List Nat) :=
  let bit_pos := (chunk_index * 32) % SIZE_MOD
  put_32_bits_loop total_bits bit_pos v 32 0 out

/-- Number of chunks `ceil(total_bits / 32)`, as a natural number. -/
def chunk_count (total_bits : Nat) : Nat := (total_bits + 31) / 32

/-- The chunk sequence of a buffer: `get_32_bits(data, len, i)` for `i = 0 .. n - 1`
(the calls made by the loop of `encode_file`, line 327-328). -/
def pack_chunks (data : List Nat) (len : Nat) : Nat → Nat → Option (List Nat)
  | 0, _ => some []
  | n + 1, i =>
    match get_32_bits data len i with
    | none => none
    | some c =>
      match pack_chunks data len n (i + 1) with
      | none => none
      | some cs => some (c :: cs)

/-- The codec operation `pack`: all chunks of a buffer of `len` bytes. -/
def pack (data : List Nat) : Option (List Nat) :=
  pack_chunks data data.length (chunk_count (8 * data.length)) 0

/-- Apply `put_32_bits(out, total_bits, i, c_i)` for the chunks `c_i` in order, starting
at chunk index `i` (the calls made by the loop of `decode_file`, line 452-453). -/
def put_chunks (total_bits : Nat) : List Nat → Nat → List Nat → Option (List Nat)
  | [], _, out => some out
  | v :: vs, i, out =>
    match put_32_bits out total_bits i v with
    | none => none
    | some out1 => put_chunks total_bits vs (i + 1) out1

/-- The codec operation `unpack`: a zero-initialised buffer of `ceil(total_bits / 8)` bytes
into which every chunk is written back. -/
def unpack (chunks : List Nat) (total_bits : Nat) : Option (List Nat) :=
  put_chunks total_bits chunks 0 (List.replicate ((total_bits + 7) / 8) 0)

/-! ## The bit-stream view of a buffer -/

/-- Bit number `j` of the bit-stream of a buffer: bit `7 - (j mod 8)` of byte `j div 8`
(bytes outside the buffer count as zero). -/
def stream_bit (buf : List Nat) (j : Nat) : Bool :=
  (buf.getD (j / 8) 0).testBit (7 - j % 8)

/-- Bit `k` of the 32-bit window `i` of the bit-stream of a buffer of `len` bytes, as the
specification words it: bit number `32 i + k` of the stream when it lies below `8 * len`,
and zero otherwise. -/
def window_bit (data : List Nat) (len i k : Nat) : Bool :=
  if 32 * i + k < 8 * len then stream_bit data (32 * i + k) else false

/-- Byte `j` of a buffer of `len` bytes, bytes at index `>= len` read as zero. -/
def byte_or_zero (data : List Nat) (len j : Nat) : Nat :=
  if j < len then data.getD j 0 else 0

/-- Big-endian combination of bytes `4 i .. 4 i + 3`, as the specification words it. -/
def be32_window (data : List Nat) (len i : Nat) : Nat :=
  byte_or_zero data len (4 * i) * 2 ^ 24 + byte_or_zero data len (4 * i + 1) * 2 ^ 16
    + byte_or_zero data len (4 * i + 2) * 2 ^ 8 + byte_or_zero data len (4 * i + 3)

/-! ## Candidate generator (xorshift128+), identical in both programs -/

/-- The struct `xorshift128plus_state`: the two 64-bit words `s[0]`, `s[1]`. -/
structure xorshift128plus_state where
  s0 : Nat
  s1 : Nat
deriving DecidableEq, Repr

/-- The function `xorshift128plus_next`: the returned word and the new state. -/
def xorshift128plus_next (st : xorshift128plus_state) : Nat × xorshift128plus_state :=
  let x := st.s0
  let y := st.s1
  let x1 := x ^^^ ((x <<< 23) % SIZE_MOD)
  let x2 := x1 ^^^ (x1 >>> 17)
  let x3 := x2 ^^^ (y ^^^ (y >>> 26))
  ((x3 + y) % SIZE_MOD, ⟨y, x3⟩)

/-- What `read(fd, st->s, 16)` did: its return value and the two words found in
`st->s` after the call. -/
structure ReadResult where
  ret : Int
  w0 : Nat
  w1 : Nat
deriving DecidableEq, Repr

/-- The function `rng_init_seed` of keygrinder: return value and generator state. -/
def rng_init_seed (rd : ReadResult) : Int × xorshift128plus_state :=
  if rd.ret ≠ 16 then (0, ⟨rd.w0, rd.w1⟩)
  else if rd.w0 = 0 ∧ rd.w1 = 0 then (1, ⟨0x123456789abcdef0, 0x0fedcba987654321⟩)
  else (1, ⟨rd.w0, rd.w1⟩)

/-- The function `init_rng_global` of keygrinder; `fd` is the result of `open` and
`g_rng` the state before the call. -/
def init_rng_global (fd : Int) (rd : ReadResult) (g_rng : xorshift128plus_state) :
    Int × xorshift128plus_state :=
  if fd < 0 then (0, g_rng)
  else
    let r := rng_init_seed rd
    if r.1 = 0 then (0, r.2) else (1, r.2)

/-- The eight bytes of a `uint64_t` in memory order on the little-endian hosts the
programs are built for. -/
def u64_bytes (w : Nat) : List Nat :=
  (List.range 8).map (fun k => (w >>> (8 * k)) % 256)

/-- The function `rng_fill32`: the 32 bytes of one candidate (four consecutive generator
outputs stored through `out64[0..3]`) and the new state. -/
def rng_fill32 (st : xorshift128plus_state) : List Nat × xorshift128plus_state :=
  let r0 := xorshift128plus_next st
  let r1 := xorshift128plus_next r0.2
  let r2 := xorshift128plus_next r1.2
  let r3 := xorshift128plus_next r2.2
  (u64_bytes r0.1 ++ u64_bytes r1.1 ++ u64_bytes r2.1 ++ u64_bytes r3.1, r3.2)

/-- The batch-filling loop `for (int i = 0; i < GPU_BATCH_SIZE; ++i) rng_fill32(...)`
with `n` slots still to fill; `filled` holds the slots already written, last one first. -/
def fill_batch_loop :
    Nat → xorshift128plus_state → List (List Nat) → List (List Nat) × xorshift128plus_state
  | 0, st, filled => (filled.reverse, st)
  | n + 1, st, filled =>
    let c := rng_fill32 st
    fill_batch_loop n c.2 (c.1 :: filled)

/-- Filling a batch of `n` slots: the batch `priv_batch` and the new generator state. -/
def fill_batch (n : Nat) (st : xorshift128plus_state) :
    List (List Nat) × xorshift128plus_state :=
  fill_batch_loop n st []

/-! ## The batch-search collaborator and the grind engine -/

/-- What one call of the external `gpu_search_batch` left behind: its return value,
the content of `match_index` (set to `-1` by the caller before the call), the bytes it
wrote to `pub_out` (`none` when it left the buffer alone) and the content of
`attempts_batch` (set to `0` by the caller before the call). -/
structure GpuAnswer where
  ok : Int
  match_index : Int
  pub : Option (List Nat)
  attempts : Nat
deriving DecidableEq, Repr

/-- The memory a grind works on: the caller's buffers `priv_out`, `pub_out`, the cell
behind `attempts_out` (`none` for a null pointer), the global generator `g_rng`, the
state of the collaborator, and a count of the `gpu_search_batch` calls made so far. -/
structure GrindState (σ : Type) where
  priv_out : List Nat
  pub_out : List Nat
  attempts_out : Option Nat
  g_rng : xorshift128plus_state
  gpu : σ
  calls : Nat

/-- The `for (;;)` loop of keygrinder `grind_for_32bit_value_gpu`, run for at most
`fuel` iterations (`none` when the fuel runs out): the return value and the memory. -/
def grind_loop {σ : Type} (gpu_search_batch : σ → Nat → List (List Nat) → GpuAnswer × σ)
    (v : Nat) : Nat → Nat → GrindState σ → Option (Int × GrindState σ)
  | 0, _, _ => none
  | fuel + 1, attempts_total, s =>
    let fb := fill_batch GPU_BATCH_SIZE s.g_rng
    let priv_batch := fb.1
    let call := gpu_search_batch s.gpu v priv_batch
    let a := call.1
    let pub_out := a.pub.getD s.pub_out
    if a.ok = 0 then
      if a.attempts = 0 then
        some (0, ⟨s.priv_out, pub_out, s.attempts_out, fb.2, call.2, s.calls + 1⟩)
      else
        grind_loop gpu_search_batch v fuel ((attempts_total + a.attempts) % SIZE_MOD)
          ⟨s.priv_out, pub_out, s.attempts_out, fb.2, call.2, s.calls + 1⟩
    else
      let attempts_total1 := (attempts_total + a.attempts) % SIZE_MOD
      if a.match_index < 0 ∨ a.match_index ≥ (GPU_BATCH_SIZE : Int) then
        some (0, ⟨s.priv_out, pub_out, s.attempts_out, fb.2, call.2, s.calls + 1⟩)
      else
        some (1, ⟨priv_batch.getD a.match_index.toNat [], pub_out,
          s.attempts_out.map (fun _ => attempts_total1), fb.2, call.2, s.calls + 1⟩)

/-- The function `grind_for_32bit_value_gpu` of keygrinder. -/
def grind_for_32bit_value_gpu {σ : Type}
    (gpu_search_batch : σ → Nat → List (List Nat) → GpuAnswer × σ)
    (fuel : Nat) (v : Nat) (s : GrindState σ) : Option (Int × GrindState σ) :=
  grind_loop gpu_search_batch v fuel 0 s

/-! ## The top-N-bit program (xgrind/xgrind_gpu.c) -/

namespace Xgrind

/-- The function `init_rng_global` of xgrind. -/
def init_rng_global (fd : Int) (rd : ReadResult) (g_rng : xorshift128plus_state) :
    Int × xorshift128plus_state :=
  if fd < 0 then (0, g_rng)
  else if rd.ret ≠ 16 then (0, ⟨rd.w0, rd.w1⟩)
  else if rd.w0 = 0 ∧ rd.w1 = 0 then (1, ⟨1, rd.w1⟩)
  else (1, ⟨rd.w0, rd.w1⟩)

/-- The `for (;;)` loop of xgrind `grind_for_32bit_value_gpu` (the masked engine), run for
at most `fuel` iterations; its batch-filling loop stores the same four generator outputs
per slot as `rng_fill32`. -/
def grind_loop {σ : Type}
    (gpu_search_batch : σ → Nat → Nat → List (List Nat) → GpuAnswer × σ)
    (v mask : Nat) : Nat → Nat → GrindState σ → Option (Int × GrindState σ)
  | 0, _, _ => none
  | fuel + 1, attempts_total, s =>
    let fb := fill_batch GPU_BATCH_SIZE s.g_rng
    let priv_batch := fb.1
    let call := gpu_search_batch s.gpu v mask priv_batch
    let a := call.1
    let pub_out := a.pub.getD s.pub_out
    let attempts_total1 := (attempts_total + a.attempts) % SIZE_MOD
    if a.ok ≠ 0 ∧ a.match_index ≥ 0 ∧ a.match_index < (GPU_BATCH_SIZE : Int) then
      some (1, ⟨priv_batch.getD a.match_index.toNat [], pub_out,
        s.attempts_out.map (fun _ => attempts_total1), fb.2, call.2, s.calls + 1⟩)
    else
      grind_loop gpu_search_batch v mask fuel attempts_total1
        ⟨s.priv_out, pub_out, s.attempts_out, fb.2, call.2, s.calls + 1⟩

/-- The function `grind_for_32bit_value_gpu` of xgrind. -/
def grind_for_32bit_value_gpu {σ : Type}
    (gpu_search_batch : σ → Nat → Nat → List (List Nat) → GpuAnswer × σ)
    (fuel : Nat) (v mask : Nat) (s : GrindState σ) : Option (Int × GrindState σ) :=
  grind_loop gpu_search_batch v mask fuel 0 s

end Xgrind

/-! ## Runs of the grind loop, round by round -/

/-- The generator state after `n` calls of `xorshift128plus_next`. -/
def rng_after : Nat → xorshift128plus_state → xorshift128plus_state
  | 0, st => st
  | n + 1, st => rng_after n (xorshift128plus_next st).2

/-- The answer of the collaborator to the batch generated from memory `s`. -/
def round_answer {σ : Type} (gpu_search_batch : σ → Nat → List (List Nat) → GpuAnswer × σ)
    (v : Nat) (s : GrindState σ) : GpuAnswer :=
  (gpu_search_batch s.gpu v (fill_batch GPU_BATCH_SIZE s.g_rng).1).1

/-- The memory after one round (one batch generated, one collaborator call) that did not
end the loop. -/
def after_round {σ : Type} (gpu_search_batch : σ → Nat → List (List Nat) → GpuAnswer × σ)
    (v : Nat) (s : GrindState σ) : GrindState σ :=
  ⟨s.priv_out, (round_answer gpu_search_batch v s).pub.getD s.pub_out, s.attempts_out,
    (fill_batch GPU_BATCH_SIZE s.g_rng).2,
    (gpu_search_batch s.gpu v (fill_batch GPU_BATCH_SIZE s.g_rng).1).2, s.calls + 1⟩

/-- The memory before round `j` (counted from 0) of a run started in `s`. -/
def round_state {σ : Type} (gpu_search_batch : σ → Nat → List (List Nat) → GpuAnswer × σ)
    (v : Nat) : Nat → GrindState σ → GrindState σ
  | 0, s => s
  | j + 1, s => round_state gpu_search_batch v j (after_round gpu_search_batch v s)

/-- The answer of the collaborator in round `j` of a run started in `s`. -/
def nth_answer {σ : Type} (gpu_search_batch : σ → Nat → List (List Nat) → GpuAnswer × σ)
    (v : Nat) (s : GrindState σ) (j : Nat) : GpuAnswer :=
  round_answer gpu_search_batch v (round_state gpu_search_batch v j s)

/-- The sum `a_1 + ... + a_m` of the attempts reported in the first `m` rounds. -/
def attempts_sum {σ : Type} (gpu_search_batch : σ → Nat → List (List Nat) → GpuAnswer × σ)
    (v : Nat) (s : GrindState σ) : Nat → Nat
  | 0 => 0
  | m + 1 => attempts_sum gpu_search_batch v s m + (nth_answer gpu_search_batch v s m).attempts

/-! ## Hex strings and the decode front end (keygrinder/xgrind_gpu.c) -/

/-- The character codes of a C string literal. -/
def c_lit (s : String) : List Nat := s.toList.map Char.toNat

/-- The C string held in a character buffer: the codes before the first NUL. -/
def c_str (buf : List Nat) : List Nat := buf.takeWhile (fun c => c ≠ 0)

/-- The lookup table `hex` of `bytes_to_hex`. -/
def hex_table : List Nat := c_lit "0123456789abcdef"

/-- The function `bytes_to_hex(in, len, out)`: the string left in `out`. -/
def bytes_to_hex (inp : List Nat) (len : Nat) : List Nat :=
  (inp.take len).flatMap
    (fun b => [hex_table.getD (b >>> 4) 0, hex_table.getD (b &&& 0x0f) 0])

/-- The value `v1` / `v2` computed by `hex_to_bytes` for one character: its hex digit
value, or `-1`. -/
def hex_val (c : Nat) : Int :=
  if 48 ≤ c ∧ c ≤ 57 then (c : Int) - 48
  else if 97 ≤ c ∧ c ≤ 102 then (c : Int) - 97 + 10
  else if 65 ≤ c ∧ c ≤ 70 then (c : Int) - 65 + 10
  else -1

/-- The loop of `hex_to_bytes`, from index `i` with `n` bytes to go; `none` is the early
`return 0`. -/
def hex_to_bytes_loop (hex : List Nat) : Nat → Nat → Option (List Nat)
  | 0, _ => some []
  | n + 1, i =>
    let c1 := hex.getD (2 * i) 0
    let c2 := hex.getD (2 * i + 1) 0
    let v1 := hex_val c1
    let v2 := hex_val c2
    if v1 < 0 ∨ v2 < 0 then none
    else
      match hex_to_bytes_loop hex n (i + 1) with
      | none => none
      | some rest => some ((((v1.toNat <<< 4) ||| v2.toNat) % 256) :: rest)

/-- The function `hex_to_bytes(hex, out, out_len)`: `none` when it returns 0, the bytes
stored in `out` when it returns 1. -/
def hex_to_bytes (hex : List Nat) (out_len : Nat) : Option (List Nat) :=
  if hex.length ≠ out_len * 2 then none
  else hex_to_bytes_loop hex out_len 0

/-- The function `extract_32bit_from_serialized`. -/
def extract_32bit_from_serialized (pub_ser : List Nat) : Nat :=
  ((pub_ser.getD 1 0 <<< 24) % U32_MOD) ||| ((pub_ser.getD 2 0 <<< 16) % U32_MOD)
    ||| ((pub_ser.getD 3 0 <<< 8) % U32_MOD) ||| pub_ser.getD 4 0

/-- The pointer advance `while (*p == ' ' || *p == '\t') p++`. -/
def skip_blanks : List Nat → List Nat
  | [] => []
  | c :: cs => if c = 32 ∨ c = 9 then skip_blanks cs else c :: cs

/-- The effect of `nl = strchr(p, '\n'); if (nl) *nl = '\0'` on the string at `p`. -/
def strip_newline (p : List Nat) : List Nat := p.takeWhile (fun c => c ≠ 10)

/-- The `while (chunk_idx < num_chunks && fgets(...))` loop of `decode_file`, over the
lines `fgets` delivers: the exit status so far (`1` for the early `return 1`), the final
`chunk_idx` and the buffer `out`; `none` is a write outside `out`. -/
def decode_loop (total_bits num_chunks : Nat) :
    List (List Nat) → Nat → List Nat → Option (Int × Nat × List Nat)
  | [], chunk_idx, out => some (0, chunk_idx, out)
  | line :: rest, chunk_idx, out =>
    if ¬ (chunk_idx < num_chunks) then some (0, chunk_idx, out)
    else
      let p := strip_newline (skip_blanks (c_str line))
      if p = [] then decode_loop total_bits num_chunks rest chunk_idx out
      else
        match hex_to_bytes p 33 with
        | none => some (1, chunk_idx, out)
        | some pub =>
          let v := extract_32bit_from_serialized pub
          match put_32_bits out total_bits chunk_idx v with
          | none => none
          | some out1 => decode_loop total_bits num_chunks rest (chunk_idx + 1) out1

/-- The function `decode_file` from line 418 on, given the length read from the meta file
and the lines of the public-key file (all files open, `calloc` succeeding): the exit
status and the bytes written to the reconstructed file. -/
def decode_file (original_size : Nat) (lines : List (List Nat)) : Option (Int × List Nat) :=
  let total_bits := (original_size * 8) % SIZE_MOD
  let num_chunks := ((total_bits + 31) % SIZE_MOD) / 32
  match decode_loop total_bits num_chunks lines 0 (List.replicate original_size 0) with
  | none => none
  | some (ret, _, out) =>
    if ret ≠ 0 then some (1, [])
    else some (0, if original_size > 0 then out.take original_size else [])

/-- A character that is neither NUL, newline, blank nor tab. -/
def clean_char (c : Nat) : Prop := c ≠ 0 ∧ c ≠ 10 ∧ c ≠ 32 ∧ c ≠ 9

instance (c : Nat) : Decidable (clean_char c) := by
  unfold clean_char
  infer_instance

/-- The lines that keygrinder `grind_for_32bit_value_gpu` itself writes to `stderr` during
a run of at most `fuel` iterations started in `s`: `GPU error in gpu_search_batch` (line
233) or `Invalid match index from GPU` (line 243) when it gives up, nothing otherwise. -/
def grind_loop_stderr {σ : Type}
    (gpu_search_batch : σ → Nat → List (List Nat) → GpuAnswer × σ) (v : Nat) :
    Nat → GrindState σ → List (List Nat)
  | 0, _ => []
  | fuel + 1, s =>
    let a := round_answer gpu_search_batch v s
    if a.ok = 0 then
      if a.attempts = 0 then [c_lit "GPU error in gpu_search_batch\n"]
      else grind_loop_stderr gpu_search_batch v fuel (after_round gpu_search_batch v s)
    else if a.match_index < 0 ∨ a.match_index ≥ (GPU_BATCH_SIZE : Int) then
      [c_lit "Invalid match index from GPU\n"]
    else []

/-! ## The stream front end of keygrinder (`grind_stream_mode`, lines 517-560) -/

/-- The C library predicate `isspace` in the C locale. -/
def is_space (c : Nat) : Bool := c = 32 ∨ (9 ≤ c ∧ c ≤ 13)

/-- The digit loop of `strtoul` in base 16: accumulate hex digits up to the first
character that is none. -/
def strtoul_digits : List Nat → Nat → Nat
  | [], acc => acc
  | c :: cs, acc =>
    if hex_val c < 0 then acc else strtoul_digits cs (acc * 16 + (hex_val c).toNat)

/-- The C library call `strtoul(p, NULL, 16)` on a 64-bit `unsigned long`: leading white
space, an optional sign, an optional `0x` / `0X`, then hex digits; `ULONG_MAX` on
overflow, and the negated value (modulo `2 ^ 64`) after a minus sign. -/
def strtoul16 (p : List Nat) : Nat :=
  let s1 := p.dropWhile is_space
  let neg := s1.head? = some 45
  let s2 := if s1.head? = some 45 ∨ s1.head? = some 43 then s1.drop 1 else s1
  let s3 := if s2.take 2 = [48, 120] ∨ s2.take 2 = [48, 88] then s2.drop 2 else s2
  let n := strtoul_digits s3 0
  if n ≥ SIZE_MOD then SIZE_MOD - 1
  else if neg then (SIZE_MOD - n) % SIZE_MOD
  else n

/-- The text of an input line as the loops see it: leading blanks skipped, cut at the
first newline. -/
def line_text (line : List Nat) : List Nat := strip_newline (skip_blanks (c_str line))

/-- The target text of a stream line: the line text without an optional `0x` / `0X`. -/
def target_text (p : List Nat) : List Nat :=
  if p.take 2 = c_lit "0x" ∨ p.take 2 = c_lit "0X" then p.drop 2 else p

/-- The memory of the stream loop: the memory of the grind engine (the buffers `priv`,
`pub`, the cell `attempts`, the generator and the collaborator), the lines written to
`stdout` and to `stderr` by the loop and by the grind engine, and a count of the grinds
performed. -/
structure StreamState (σ : Type) where
  mem : GrindState σ
  stdout : List (List Nat)
  stderr : List (List Nat)
  grinds : Nat

/-- The line `"<priv_hex> <pub_hex> <attempts>\n"` printed for a successful grind. -/
def result_line (priv pub : List Nat) (attempts : Nat) : List Nat :=
  bytes_to_hex priv 32 ++ [32] ++ bytes_to_hex pub 33 ++ [32]
    ++ c_lit (Nat.repr attempts) ++ [10]

/-- The `while (fgets(line, sizeof(line), stdin))` loop of keygrinder `grind_stream_mode`,
over the lines `fgets` delivers; every grind gets `fuel` iterations (`none` when one runs
out of fuel). -/
def grind_stream_loop {σ : Type}
    (gpu_search_batch : σ → Nat → List (List Nat) → GpuAnswer × σ) (fuel : Nat) :
    List (List Nat) → StreamState σ → Option (StreamState σ)
  | [], st => some st
  | line :: rest, st =>
    let p := strip_newline (skip_blanks (c_str line))
    if p = [] then grind_stream_loop gpu_search_batch fuel rest st
    else if p = c_lit "quit" ∨ p = c_lit "exit" then some st
    else
      let p1 := if p.take 2 = c_lit "0x" ∨ p.take 2 = c_lit "0X" then p.drop 2 else p
      if p1.length ≠ 8 then
        grind_stream_loop gpu_search_batch fuel rest
          ⟨st.mem, st.stdout, st.stderr ++ [c_lit "Expected 8 hex chars, got: " ++ p1 ++ [10]],
            st.grinds⟩
      else
        let target := strtoul16 p1 % U32_MOD
        match grind_for_32bit_value_gpu gpu_search_batch fuel target
            ⟨st.mem.priv_out, st.mem.pub_out, some 0, st.mem.g_rng, st.mem.gpu,
              st.mem.calls⟩ with
        | none => none
        | some (ret, m) =>
          if ret = 0 then
            some ⟨m, st.stdout,
              st.stderr
                ++ grind_loop_stderr gpu_search_batch target fuel
                    ⟨st.mem.priv_out, st.mem.pub_out, some 0, st.mem.g_rng, st.mem.gpu,
                      st.mem.calls⟩
                ++ [c_lit "grind_for_32bit_value_gpu failed\n"],
              st.grinds + 1⟩
          else
            grind_stream_loop gpu_search_batch fuel rest
              ⟨m, st.stdout ++ [result_line m.priv_out m.pub_out (m.attempts_out.getD 0)],
                st.stderr, st.grinds + 1⟩

/-! ## The parts of one generator step -/

/-- The value of `x` in `xorshift128plus_next` after `x ^= x << 23; x ^= x >> 17`. -/
def xs_mix (x : Nat) : Nat :=
  let x1 := x ^^^ ((x <<< 23) % SIZE_MOD)
  x1 ^^^ (x1 >>> 17)

/-- The negation of a `uint64_t`: the value `v` with `v + b == 0` in 64-bit arithmetic. -/
def neg64 (b : Nat) : Nat := (SIZE_MOD - b) % SIZE_MOD

/-! ## The hash front end of keygrinder (`grind_hash_mode`, lines 585-687) -/

/-- What `grind_hash_mode` finds outside the program: whether `malloc` succeeds, the
result of `open("/dev/urandom")`, and what `read` delivers. -/
structure HashEnv where
  malloc_ok : Bool
  fd : Int
  rd : ReadResult

/-- The memory and the trace of a `grind_hash_mode` run: the memory of the grind engine,
the lines written to `stdout`, the diagnostics written to `stderr` by `grind_hash_mode`
and by the grind engine (the `perror` output of `init_rng_global` is not recorded), and
counts of the grinds performed and of the calls of `init_rng_global`, `gpu_init` and
`gpu_shutdown`. -/
structure HashState (σ : Type) where
  mem : GrindState σ
  stdout : List (List Nat)
  stderr : List (List Nat)
  grinds : Nat
  rng_inits : Nat
  gpu_inits : Nat
  gpu_shutdowns : Nat

/-- The `for (size_t i = 0; i < num_chunks; ++i)` loop of `grind_hash_mode` with `n`
chunks to go: the exit status so far (`1` for the early `return 1`), `attempts_sum` and
the memory; `none` when a grind runs out of fuel. -/
def grind_hash_loop {σ : Type}
    (gpu_search_batch : σ → Nat → List (List Nat) → GpuAnswer × σ)
    (gpu_shutdown : σ → σ) (fuel : Nat) (hash_bytes : List Nat) :
    Nat → Nat → Nat → HashState σ → Option (Int × Nat × HashState σ)
  | 0, _, attempts_sum, w => some (0, attempts_sum, w)
  | n + 1, i, attempts_sum, w =>
    let v := ((hash_bytes.getD (4 * i) 0 <<< 24) % U32_MOD)
      ||| ((hash_bytes.getD (4 * i + 1) 0 <<< 16) % U32_MOD)
      ||| ((hash_bytes.getD (4 * i + 2) 0 <<< 8) % U32_MOD)
      ||| hash_bytes.getD (4 * i + 3) 0
    match grind_for_32bit_value_gpu gpu_search_batch fuel v
        ⟨w.mem.priv_out, w.mem.pub_out, some 0, w.mem.g_rng, w.mem.gpu, w.mem.calls⟩ with
    | none => none
    | some (ret, m) =>
      if ret = 0 then
        some (1, attempts_sum,
          ⟨⟨m.priv_out, m.pub_out, m.attempts_out, m.g_rng, gpu_shutdown m.gpu, m.calls⟩,
            w.stdout,
            w.stderr
              ++ grind_loop_stderr gpu_search_batch v fuel
                  ⟨w.mem.priv_out, w.mem.pub_out, some 0, w.mem.g_rng, w.mem.gpu, w.mem.calls⟩
              ++ [c_lit "grind_for_32bit_value_gpu failed on chunk "
                ++ c_lit (Nat.repr i) ++ [10]],
            w.grinds + 1, w.rng_inits, w.gpu_inits, w.gpu_shutdowns + 1⟩)
      else
        grind_hash_loop gpu_search_batch gpu_shutdown fuel hash_bytes n (i + 1)
          ((attempts_sum + m.attempts_out.getD 0) % SIZE_MOD)
          ⟨m, w.stdout ++ [result_line m.priv_out m.pub_out (m.attempts_out.getD 0)],
            w.stderr, w.grinds + 1, w.rng_inits, w.gpu_inits, w.gpu_shutdowns⟩

/-- The function `grind_hash_mode(hex)`: the exit status and the memory and trace it
leaves. The collaborator is given by `gpu_init`, `gpu_search_batch` and `gpu_shutdown`;
`fmt_avg attempts_sum num_chunks` stands for the `%.1f` rendering of the floating-point
average in the final diagnostic. -/
def grind_hash_mode {σ : Type}
    (gpu_init : σ → Int × σ)
    (gpu_search_batch : σ → Nat → List (List Nat) → GpuAnswer × σ)
    (gpu_shutdown : σ → σ) (fmt_avg : Nat → Nat → List Nat)
    (fuel : Nat) (env : HashEnv) (hex : List Nat) (w : HashState σ) :
    Option (Int × HashState σ) :=
  let hex_len := hex.length
  if hex_len = 0 ∨ hex_len &&& 1 ≠ 0 then
    some (1, ⟨w.mem, w.stdout,
      w.stderr ++ [c_lit "Hash hex must have an even number of characters\n"],
      w.grinds, w.rng_inits, w.gpu_inits, w.gpu_shutdowns⟩)
  else if hex_len % 8 ≠ 0 then
    some (1, ⟨w.mem, w.stdout,
      w.stderr ++ [c_lit "Hash length must be a multiple of 8 hex chars (32 bits per chunk)\n"],
      w.grinds, w.rng_inits, w.gpu_inits, w.gpu_shutdowns⟩)
  else
    let num_bytes := hex_len / 2
    let num_chunks := num_bytes / 4
    if ¬ env.malloc_ok then
      some (1, ⟨w.mem, w.stdout, w.stderr ++ [c_lit "malloc failed in grind_hash_mode\n"],
        w.grinds, w.rng_inits, w.gpu_inits, w.gpu_shutdowns⟩)
    else
      match hex_to_bytes hex num_bytes with
      | none =>
        some (1, ⟨w.mem, w.stdout, w.stderr ++ [c_lit "Invalid hash hex string\n"],
          w.grinds, w.rng_inits, w.gpu_inits, w.gpu_shutdowns⟩)
      | some hash_bytes =>
        let r := init_rng_global env.fd env.rd w.mem.g_rng
        if r.1 = 0 then
          some (1, ⟨⟨w.mem.priv_out, w.mem.pub_out, w.mem.attempts_out, r.2, w.mem.gpu,
              w.mem.calls⟩,
            w.stdout, w.stderr ++ [c_lit "Failed to init RNG\n"],
            w.grinds, w.rng_inits + 1, w.gpu_inits, w.gpu_shutdowns⟩)
        else
          let gi := gpu_init w.mem.gpu
          if gi.1 = 0 then
            some (1, ⟨⟨w.mem.priv_out, w.mem.pub_out, w.mem.attempts_out, r.2, gi.2,
                w.mem.calls⟩,
              w.stdout, w.stderr ++ [c_lit "Failed to init GPU\n"],
              w.grinds, w.rng_inits + 1, w.gpu_inits + 1, w.gpu_shutdowns⟩)
          else
            match grind_hash_loop gpu_search_batch gpu_shutdown fuel hash_bytes num_chunks 0 0
                ⟨⟨w.mem.priv_out, w.mem.pub_out, w.mem.attempts_out, r.2, gi.2, w.mem.calls⟩,
                  w.stdout,
                  w.stderr ++ [c_lit "Grinding hash of " ++ c_lit (Nat.repr num_bytes)
                    ++ c_lit " bytes into " ++ c_lit (Nat.repr num_chunks)
                    ++ c_lit " 32-bit chunks...\n"],
                  w.grinds, w.rng_inits + 1, w.gpu_inits + 1, w.gpu_shutdowns⟩ with
            | none => none
            | some (ret, attempts_sum, w1) =>
              if ret ≠ 0 then some (1, w1)
              else
                some (0, ⟨⟨w1.mem.priv_out, w1.mem.pub_out, w1.mem.attempts_out, w1.mem.g_rng,
                    gpu_shutdown w1.mem.gpu, w1.mem.calls⟩,
                  w1.stdout,
                  w1.stderr ++ [if num_chunks > 0 then
                      c_lit "Done. Generated " ++ c_lit (Nat.repr num_chunks)
                        ++ c_lit " keys. Avg attempts per chunk: "
                        ++ fmt_avg attempts_sum num_chunks ++ [10]
                    else c_lit "Done. Zero-length hash (no chunks)\n"],
                  w1.grinds, w1.rng_inits, w1.gpu_inits, w1.gpu_shutdowns + 1⟩)

/-! ## Chunk counts of the file front ends (keygrinder/xgrind_gpu.c) -/

/-- The value `num_chunks` computed by `encode_file` (lines 317-318) for a file of `len`
bytes: `total_bits = len * 8`, `num_chunks = (total_bits + 31) / 32`, in `size_t`. -/
def encode_num_chunks (len : Nat) : Nat :=
  let total_bits := (len * 8) % SIZE_MOD
  ((total_bits + 31) % SIZE_MOD) / 32

/-- The value `num_chunks` computed by `decode_file` (lines 418-419) from the length
`original_size` read from the meta file, in `size_t`. -/
def decode_num_chunks (original_size : Nat) : Nat :=
  let total_bits := (original_size * 8) % SIZE_MOD
  ((total_bits + 31) % SIZE_MOD) / 32

/-! ## The bit-width argument and the mask of xgrind -/

namespace Xgrind

/-- The value `bits` that `main` hands to `grind_stream_mode` (lines 114-117): `argc` is
the argument count and `atoi_arg` the result of `atoi(argv[2])` when there is a third
argument. -/
def main_bits (argc : Nat) (atoi_arg : Int) : Int :=
  let bits := if argc ≥ 3 then atoi_arg else 32
  if bits < 1 ∨ bits > 32 then 32 else bits

/-- The value `mask` computed by `grind_stream_mode(bits)` (lines 80-81), which it passes
unchanged to every `grind_for_32bit_value_gpu` call and so to `gpu_search_batch`. -/
def grind_stream_mask (bits : Int) : Nat :=
  if bits < 32 ∧ bits > 0 then
    ((((0xFFFFFFFF : Nat) <<< (32 - bits).toNat) % SIZE_MOD) &&& 0xFFFFFFFF) % U32_MOD
  else 0xFFFFFFFF

end Xgrind

/-! ## Stub collaborators used in the examples -/

/-- A collaborator (its state counts the calls) that reports "not found, 16384 tested"
on its first call and afterwards a match in slot 2 after 3 attempts. -/
def stub_second_batch : Nat → Nat → List (List Nat) → GpuAnswer × Nat :=
  fun c _ _ =>
    if c = 0 then (⟨0, -1, none, 16384⟩, 1)
    else (⟨1, 2, some (List.replicate 33 2), 3⟩, c + 1)

/-- A collaborator that reports "not found" with zero attempts on its first call and a
match in slot 0 after one attempt on every later call. -/
def stub_error_first : Nat → Nat → List (List Nat) → GpuAnswer × Nat :=
  fun c _ _ =>
    if c = 0 then (⟨0, -1, none, 0⟩, 1)
    else (⟨1, 0, some (List.replicate 33 2), 1⟩, c + 1)

/-- A collaborator that reports a match in slot 0 with an attempt count of zero. -/
def stub_zero_attempts : Nat → Nat → List (List Nat) → GpuAnswer × Nat :=
  fun c _ _ => (⟨1, 0, some (List.replicate 33 2), 0⟩, c + 1)

/-- A collaborator that reports a match in slot 0 after one attempt on every call. -/
def stub_first_candidate : Nat → Nat → List (List Nat) → GpuAnswer × Nat :=
  fun c _ _ => (⟨1, 0, some (List.replicate 33 2), 1⟩, c + 1)

/-- The masked-engine version of `stub_error_first`: "not found" with zero attempts on
the first call, a match in slot 0 after one attempt on every later call. -/
def stub_error_first_masked : Nat → Nat → Nat → List (List Nat) → GpuAnswer × Nat :=
  fun c _ _ _ =>
    if c = 0 then (⟨0, -1, none, 0⟩, 1)
    else (⟨1, 0, some (List.replicate 33 2), 1⟩, c + 1)

/-- The masked-engine version of `stub_first_candidate`. -/
def stub_first_candidate_masked : Nat → Nat → Nat → List (List Nat) → GpuAnswer × Nat :=
  fun c _ _ _ => (⟨1, 0, some (List.replicate 33 2), 1⟩, c + 1)

/-- A collaborator that remembers the targets it was asked to search (latest first) and
reports a match in slot 0 after one attempt on every call. -/
def stub_recording : List Nat → Nat → List (List Nat) → GpuAnswer × List Nat :=
  fun seen v _ => (⟨1, 0, some (List.replicate 33 2), 1⟩, v :: seen)

/-- A starting memory for `stub_recording`. -/
def stub_recording_memory : GrindState (List Nat) := ⟨[], [], some 0, ⟨1, 2⟩, [], 0⟩

/-- A collaborator start-up that succeeds and leaves the collaborator state alone. -/
def stub_gpu_init : Nat → Int × Nat := fun c => (1, c)

/-- A collaborator shutdown that leaves the collaborator state alone. -/
def stub_gpu_shutdown : Nat → Nat := fun c => c

/-- A stand-in for the `%.1f` rendering of the average: the integer quotient followed
by `.0`. -/
def stub_fmt_avg : Nat → Nat → List Nat :=
  fun attempts_sum num_chunks => c_lit (Nat.repr (attempts_sum / num_chunks)) ++ c_lit ".0"

/-- An environment in which `malloc`, `open` and `read` succeed, with seed `(5, 6)`. -/
def stub_env : HashEnv := ⟨true, 3, ⟨16, 5, 6⟩⟩

/-- A starting memory and empty trace for `grind_hash_mode`. -/
def stub_hash_state : HashState Nat :=
  ⟨⟨[], [], some 0, ⟨0, 0⟩, 0, 0⟩, [], [], 0, 0, 0, 0⟩

/-- A collaborator that reports "not found" with `2^64 - 1` attempts on its first call
and afterwards a match in slot 0 after 2 attempts. -/
def stub_overflow : Nat → Nat → List (List Nat) → GpuAnswer × Nat :=
  fun c _ _ =>
    if c = 0 then (⟨0, -1, none, 2 ^ 64 - 1⟩, 1)
    else (⟨1, 0, some (List.replicate 33 2), 2⟩, c + 1)

/-- A starting memory for the examples: empty key buffers, an attempts cell holding 0,
generator state `(1, 2)`, a collaborator that has not been called. -/
def stub_memory : GrindState Nat := ⟨[], [], some 0, ⟨1, 2⟩, 0, 0⟩

/-! # Theorems -/

/-! ## Lemmas on bits -/

theorem and_one_testBit (x t : Nat) :
    ((x >>> t) &&& 1) = (if x.testBit t then 1 else 0) := by
  rw [Nat.and_one_is_mod, Nat.testBit_to_div_mod, Nat.shiftRight_eq_div_pow]
  by_cases h : x / 2 ^ t % 2 = 1
  · simp [h]
  · have : x / 2 ^ t % 2 = 0 := by omega
    simp [this]

theorem get_loop_spec (data : List Nat) (bp tb : Nat) (hwrap : bp + 31 < 2 ^ 64)
    (hin : tb ≤ 8 * data.length) :
    ∀ (n i result : Nat), n + i = 32 → result < 2 ^ 32 →
      ∃ r, get_32_bits_loop data bp tb n i result = some r ∧ r < 2 ^ 32 ∧
        ∀ k, k < 32 → r.testBit (31 - k) =
          if k < i then result.testBit (i - 1 - k)
          else (decide (bp + k < tb) && stream_bit data (bp + k)) := by
  intro n
  induction n with
  | zero =>
    intro i result hni hres
    refine ⟨result, rfl, hres, ?_⟩
    intro k hk
    have hi : i = 32 := by omega
    subst hi
    simp [hk]
  | succ n ih =>
    intro i result hni hres
    have hmod : (bp + i) % SIZE_MOD = bp + i := by
      apply Nat.mod_eq_of_lt
      unfold SIZE_MOD
      omega
    unfold get_32_bits_loop
    simp only [hmod]
    by_cases hbrk : bp + i ≥ tb
    · simp only [hbrk, if_true]
      refine ⟨_, rfl, Nat.mod_lt _ (by unfold U32_MOD; norm_num), ?_⟩
      intro k hk
      unfold U32_MOD
      rw [Nat.testBit_mod_two_pow, Nat.testBit_shiftLeft]
      by_cases hki : k < i
      · have h1 : 31 - k < 32 := by omega
        have h2 : 31 - k ≥ 32 - i := by omega
        have h3 : 31 - k - (32 - i) = i - 1 - k := by omega
        simp [h1, h2, h3, hki]
      · have h2 : ¬ (31 - k ≥ 32 - i) := by omega
        have h4 : ¬ (bp + k < tb) := by omega
        simp [h2, hki, h4]
    · simp only [hbrk, if_false]
      have hlt : (bp + i) / 8 < data.length := by omega
      have hget : data[(bp + i) / 8]? = some (data[(bp + i) / 8]) :=
        List.getElem?_eq_getElem hlt
      simp only [hget]
      have hbit : ((data[(bp + i) / 8] >>> (7 - (bp + i) % 8)) &&& 1) < 2 := by
        rw [and_one_testBit]; split <;> omega
      have hres2 : ((result <<< 1) % U32_MOD ||| ((data[(bp + i) / 8] >>> (7 - (bp + i) % 8)) &&& 1))
          < 2 ^ 32 := by
        apply Nat.or_lt_two_pow
        · exact Nat.mod_lt _ (by unfold U32_MOD; norm_num)
        · omega
      obtain ⟨r, hr, hrlt, hrb⟩ := ih (i + 1) _ (by omega) hres2
      refine ⟨r, hr, hrlt, ?_⟩
      intro k hk
      rw [hrb k hk]
      by_cases hki : k < i
      · have h1 : k < i + 1 := by omega
        simp only [h1, hki, if_true]
        rw [Nat.testBit_or, and_one_testBit]
        unfold U32_MOD
        rw [Nat.testBit_mod_two_pow, Nat.testBit_shiftLeft]
        have e : i + 1 - 1 - k = (i - 1 - k) + 1 := by omega
        rw [e]
        have h5 : i - 1 - k + 1 < 32 := by omega
        have h8 : ∀ c : Bool, (if c then 1 else 0 : Nat).testBit (i - 1 - k + 1) = false := by
          intro c
          cases c
          · simp
          · simp only [if_true]
            apply Nat.testBit_lt_two_pow
            calc 1 < 2 ^ 1 := by norm_num
              _ ≤ 2 ^ (i - 1 - k + 1) := Nat.pow_le_pow_right (by norm_num) (by omega)
        rw [h8]
        simp [h5]
      · by_cases hke : k = i
        · subst hke
          have h1 : k < k + 1 := by omega
          have h9 : bp + k < tb := by omega
          simp only [h1, hki, if_true, if_false, h9, decide_True, Bool.true_and]
          rw [Nat.testBit_or, and_one_testBit]
          unfold U32_MOD
          rw [Nat.testBit_mod_two_pow, Nat.testBit_shiftLeft]
          have h10 : k + 1 - 1 - k = 0 := by omega
          rw [h10]
          unfold stream_bit
          rw [List.getD_eq_getElem _ _ hlt]
          cases hb : (data[(bp + k) / 8]).testBit (7 - (bp + k) % 8) <;> simp
        · have h1 : ¬ (k < i + 1) := by omega
          simp only [h1, hki, if_false]

theorem get_32_bits_bits (data : List Nat) (i : Nat) (hlen : data.length < 2 ^ 61)
    (hi : i < 2 ^ 59) :
    ∃ r, get_32_bits data data.length i = some r ∧ r < 2 ^ 32 ∧
      ∀ k, k < 32 → r.testBit (31 - k) = window_bit data data.length i k := by
  have hm1 : (i * 32) % SIZE_MOD = 32 * i := by
    unfold SIZE_MOD
    omega
  have hm2 : (data.length * 8) % SIZE_MOD = 8 * data.length := by
    unfold SIZE_MOD
    omega
  unfold get_32_bits
  simp only [hm1, hm2]
  by_cases h : 32 * i ≥ 8 * data.length
  · simp only [h, if_true]
    refine ⟨0, rfl, by norm_num, ?_⟩
    intro k _
    have h2 : ¬ (32 * i + k < 8 * data.length) := by omega
    simp [window_bit, h2]
  · simp only [h, if_false]
    obtain ⟨r, hr, hrlt, hrb⟩ := get_loop_spec data (32 * i) (8 * data.length)
      (by omega) (le_refl _) 32 0 0 rfl (by norm_num)
    refine ⟨r, hr, hrlt, ?_⟩
    intro k hk
    rw [hrb k hk]
    unfold window_bit
    by_cases h3 : 32 * i + k < 8 * data.length <;> simp [h3]

theorem be32_testBit_low (b0 b1 b2 b3 : Nat) (h1 : b1 < 256) (h2 : b2 < 256)
    (h3 : b3 < 256) (t : Nat) :
    (b0 * 2 ^ 24 + b1 * 2 ^ 16 + b2 * 2 ^ 8 + b3).testBit t =
      if t < 8 then b3.testBit t else if t < 16 then b2.testBit (t - 8)
      else if t < 24 then b1.testBit (t - 16) else b0.testBit (t - 24) := by
  have e : b0 * 2 ^ 24 + b1 * 2 ^ 16 + b2 * 2 ^ 8 + b3
      = 2 ^ 8 * (2 ^ 8 * (2 ^ 8 * b0 + b1) + b2) + b3 := by ring
  rw [e, Nat.testBit_mul_pow_two_add _ (by omega : b3 < 2 ^ 8)]
  by_cases c1 : t < 8
  · simp [c1]
  · simp only [c1, if_false]
    rw [Nat.testBit_mul_pow_two_add _ (by omega : b2 < 2 ^ 8)]
    by_cases c2 : t < 16
    · have : t - 8 < 8 := by omega
      simp [c2, this]
    · have c2b : ¬ (t - 8 < 8) := by omega
      simp only [c2, c2b, if_false]
      rw [Nat.testBit_mul_pow_two_add _ (by omega : b1 < 2 ^ 8)]
      by_cases c3 : t < 24
      · have c3a : t - 8 - 8 < 8 := by omega
        have e2 : t - 8 - 8 = t - 16 := by omega
        rw [if_pos c3a, if_pos c3, e2]
      · have c3b : ¬ (t - 8 - 8 < 8) := by omega
        have e3 : t - 8 - 8 - 8 = t - 24 := by omega
        rw [if_neg c3b, if_neg c3, e3]

theorem be32_lt (b0 b1 b2 b3 : Nat) (h0 : b0 < 256) (h1 : b1 < 256) (h2 : b2 < 256)
    (h3 : b3 < 256) : b0 * 2 ^ 24 + b1 * 2 ^ 16 + b2 * 2 ^ 8 + b3 < 2 ^ 32 := by
  omega

theorem be32_testBit (b0 b1 b2 b3 : Nat) (h1 : b1 < 256) (h2 : b2 < 256)
    (h3 : b3 < 256) (k : Nat) (hk : k < 32) :
    (b0 * 2 ^ 24 + b1 * 2 ^ 16 + b2 * 2 ^ 8 + b3).testBit (31 - k) =
      stream_bit [b0, b1, b2, b3] k := by
  rw [be32_testBit_low b0 b1 b2 b3 h1 h2 h3]
  unfold stream_bit
  have hq : k / 8 = 0 ∨ k / 8 = 1 ∨ k / 8 = 2 ∨ k / 8 = 3 := by omega
  rcases hq with q | q | q | q
  · have a1 : ¬ (31 - k < 8) := by omega
    have a2 : ¬ (31 - k < 16) := by omega
    have a3 : ¬ (31 - k < 24) := by omega
    have a4 : 31 - k - 24 = 7 - k % 8 := by omega
    simp [q, a1, a2, a3, a4]
  · have a1 : ¬ (31 - k < 8) := by omega
    have a2 : ¬ (31 - k < 16) := by omega
    have a3 : 31 - k < 24 := by omega
    have a4 : 31 - k - 16 = 7 - k % 8 := by omega
    simp [q, a1, a2, a3, a4]
  · have a1 : ¬ (31 - k < 8) := by omega
    have a2 : 31 - k < 16 := by omega
    have a4 : 31 - k - 8 = 7 - k % 8 := by omega
    simp [q, a1, a2, a4]
  · have a1 : 31 - k < 8 := by omega
    have a4 : 31 - k = 7 - k % 8 := by omega
    simp only [q, a1, if_true]
    rw [a4]
    simp

theorem eq_of_testBit_top32 (x y : Nat) (hx : x < 2 ^ 32) (hy : y < 2 ^ 32)
    (h : ∀ k, k < 32 → x.testBit (31 - k) = y.testBit (31 - k)) : x = y := by
  apply Nat.eq_of_testBit_eq
  intro t
  by_cases ht : t < 32
  · have := h (31 - t) (by omega)
    have e : 31 - (31 - t) = t := by omega
    rwa [e] at this
  · have hp : 2 ^ 32 ≤ 2 ^ t := Nat.pow_le_pow_right (by norm_num) (by omega)
    rw [Nat.testBit_lt_two_pow (lt_of_lt_of_le hx hp),
      Nat.testBit_lt_two_pow (lt_of_lt_of_le hy hp)]

theorem byte_or_zero_lt (data : List Nat) (hb : ∀ x ∈ data, x < 256) (len j : Nat) :
    byte_or_zero data len j < 256 := by
  unfold byte_or_zero
  split
  · rw [List.getD_eq_getElem?_getD]
    cases hj : data[j]? with
    | none => simp
    | some x =>
      have := List.getElem?_mem hj
      simpa using hb x this
  · norm_num

theorem window_bit_eq_bytes (data : List Nat) (i k : Nat) (hk : k < 32) :
    window_bit data data.length i k =
      stream_bit [byte_or_zero data data.length (4 * i),
        byte_or_zero data data.length (4 * i + 1),
        byte_or_zero data data.length (4 * i + 2),
        byte_or_zero data data.length (4 * i + 3)] k := by
  unfold window_bit stream_bit byte_or_zero
  have e1 : (32 * i + k) / 8 = 4 * i + k / 8 := by omega
  have e2 : (32 * i + k) % 8 = k % 8 := by omega
  rw [e1, e2]
  have hq : k / 8 = 0 ∨ k / 8 = 1 ∨ k / 8 = 2 ∨ k / 8 = 3 := by omega
  have hsel : ∀ f : Nat → Nat, [f (4 * i), f (4 * i + 1), f (4 * i + 2), f (4 * i + 3)].getD (k / 8) 0
      = f (4 * i + k / 8) := by
    intro f
    rcases hq with q | q | q | q <;> rw [q] <;> simp
  rw [hsel (fun j => if j < data.length then data.getD j 0 else 0)]
  by_cases c : 32 * i + k < 8 * data.length
  · have c2 : 4 * i + k / 8 < data.length := by omega
    simp only [c, c2, if_true]
  · have c2 : ¬ (4 * i + k / 8 < data.length) := by omega
    simp only [c, c2, if_false]
    simp

/-! ## Lemmas on `put_32_bits` -/

theorem stream_bit_set (out : List Nat) (c b : Nat) (hc : c / 8 < out.length)
    (hb : out[c / 8]? = some b) (j : Nat) :
    (stream_bit (out.set (c / 8) ((b ||| ((1 <<< (7 - c % 8)) % 256)) % 256)) j = true)
      ↔ (stream_bit out j = true ∨ j = c) := by
  unfold stream_bit
  rw [List.getD_eq_getElem?_getD, List.getD_eq_getElem?_getD, List.getElem?_set]
  by_cases hj : c / 8 = j / 8
  · have hlt : c / 8 < out.length := hc
    rw [if_pos hj, if_pos hlt, ← hj, hb]
    simp only [Option.getD_some]
    have e256 : (256 : Nat) = 2 ^ 8 := by norm_num
    rw [e256, Nat.testBit_mod_two_pow, Nat.testBit_or, Nat.testBit_mod_two_pow,
      Nat.one_shiftLeft, Nat.testBit_two_pow]
    have h7 : 7 - j % 8 < 8 := by omega
    by_cases hjc : j = c
    · subst hjc
      simp [h7]
    · have hne : ¬ (7 - c % 8 = 7 - j % 8) := by omega
      simp [h7, hne, hjc]
  · have hjc : ¬ (j = c) := by
      intro h
      apply hj
      rw [h]
    rw [if_neg hj]
    simp [hjc]

theorem put_loop_spec (tb bp v : Nat) (hwrap : bp + 31 < 2 ^ 64) :
    ∀ (n i : Nat) (out : List Nat), n + i = 32 → tb ≤ 8 * out.length →
      ∃ out1, put_32_bits_loop tb bp v n i out = some out1 ∧ out1.length = out.length ∧
        ((∀ x ∈ out, x < 256) → ∀ x ∈ out1, x < 256) ∧
        ∀ j, (stream_bit out1 j = true ↔
          (stream_bit out j = true ∨
            (bp + i ≤ j ∧ j < bp + 32 ∧ j < tb ∧ v.testBit (31 - (j - bp)) = true))) := by
  intro n
  induction n with
  | zero =>
    intro i out hni _
    refine ⟨out, rfl, rfl, fun h => h, ?_⟩
    intro j
    constructor
    · intro h
      exact Or.inl h
    · rintro (h | ⟨h1, h2, _, _⟩)
      · exact h
      · omega
  | succ n ih =>
    intro i out hni hlen
    have hmod : (bp + i) % SIZE_MOD = bp + i := by
      apply Nat.mod_eq_of_lt
      unfold SIZE_MOD
      omega
    unfold put_32_bits_loop
    simp only [hmod]
    by_cases hbrk : bp + i ≥ tb
    · simp only [hbrk, if_true]
      refine ⟨out, rfl, rfl, fun h => h, ?_⟩
      intro j
      constructor
      · intro h
        exact Or.inl h
      · rintro (h | ⟨h1, _, h3, _⟩)
        · exact h
        · omega
    · simp only [hbrk, if_false]
      rw [and_one_testBit]
      by_cases hbit : v.testBit (31 - i) = true
      · simp only [hbit, if_true]
        have hlt : (bp + i) / 8 < out.length := by omega
        have hget : out[(bp + i) / 8]? = some (out[(bp + i) / 8]) :=
          List.getElem?_eq_getElem hlt
        have hne : (1 : Nat) ≠ 0 := by norm_num
        simp only [hget, ne_eq, hne, not_false_eq_true, if_true]
        obtain ⟨out1, h1, h2, h3, h4⟩ := ih (i + 1)
          (out.set ((bp + i) / 8)
            ((out[(bp + i) / 8] ||| ((1 <<< (7 - (bp + i) % 8)) % 256)) % 256))
          (by omega) (by rw [List.length_set]; exact hlen)
        refine ⟨out1, h1, by rw [h2, List.length_set], ?_, ?_⟩
        · intro hb
          apply h3
          intro x hx
          rcases List.mem_or_eq_of_mem_set hx with hx1 | hx1
          · exact hb x hx1
          · rw [hx1]
            exact Nat.mod_lt _ (by norm_num)
        · intro j
          rw [h4 j, stream_bit_set out (bp + i) _ hlt hget j]
          constructor
          · rintro ((h | h) | ⟨a1, a2, a3, a4⟩)
            · exact Or.inl h
            · right
              subst h
              refine ⟨le_refl _, by omega, by omega, ?_⟩
              have e : bp + i - bp = i := by omega
              rw [e]
              exact hbit
            · right
              exact ⟨by omega, a2, a3, a4⟩
          · rintro (h | ⟨a1, a2, a3, a4⟩)
            · exact Or.inl (Or.inl h)
            · by_cases hj : j = bp + i
              · exact Or.inl (Or.inr hj)
              · right
                exact ⟨by omega, a2, a3, a4⟩
      · have hbit0 : v.testBit (31 - i) = false := by
          cases hv : v.testBit (31 - i)
          · rfl
          · exact absurd hv hbit
        simp only [hbit0, Bool.false_eq_true, if_false, ne_eq, not_true_eq_false]
        obtain ⟨out1, h1, h2, h3, h4⟩ := ih (i + 1) out (by omega) hlen
        refine ⟨out1, h1, h2, h3, ?_⟩
        intro j
        rw [h4 j]
        constructor
        · rintro (h | ⟨a1, a2, a3, a4⟩)
          · exact Or.inl h
          · right
            exact ⟨by omega, a2, a3, a4⟩
        · rintro (h | ⟨a1, a2, a3, a4⟩)
          · exact Or.inl h
          · right
            refine ⟨?_, a2, a3, a4⟩
            by_contra hcon
            have hj : j = bp + i := by omega
            subst hj
            have e : bp + i - bp = i := by omega
            rw [e, hbit0] at a4
            exact Bool.noConfusion a4

theorem put_32_bits_spec (tb v i0 : Nat) (out : List Nat) (hwrap : 32 * i0 + 31 < 2 ^ 64)
    (hlen : tb ≤ 8 * out.length) :
    ∃ out1, put_32_bits out tb i0 v = some out1 ∧ out1.length = out.length ∧
      ((∀ x ∈ out, x < 256) → ∀ x ∈ out1, x < 256) ∧
      ∀ j, (stream_bit out1 j = true ↔
        (stream_bit out j = true ∨
          (32 * i0 ≤ j ∧ j < 32 * i0 + 32 ∧ j < tb ∧ v.testBit (31 - j % 32) = true))) := by
  have hm : (i0 * 32) % SIZE_MOD = 32 * i0 := by
    unfold SIZE_MOD
    omega
  unfold put_32_bits
  simp only [hm]
  obtain ⟨out1, h1, h2, h3, h4⟩ := put_loop_spec tb (32 * i0) v hwrap 32 0 out rfl hlen
  refine ⟨out1, h1, h2, h3, ?_⟩
  intro j
  rw [h4 j]
  constructor
  · rintro (h | ⟨a1, a2, a3, a4⟩)
    · exact Or.inl h
    · right
      have e : j - 32 * i0 = j % 32 := by omega
      rw [e] at a4
      exact ⟨by omega, a2, a3, a4⟩
  · rintro (h | ⟨a1, a2, a3, a4⟩)
    · exact Or.inl h
    · right
      have e : j - 32 * i0 = j % 32 := by omega
      rw [e]
      exact ⟨by omega, a2, a3, a4⟩

theorem put_chunks_spec (tb : Nat) :
    ∀ (cs : List Nat) (i0 : Nat) (out : List Nat), 32 * (i0 + cs.length) ≤ 2 ^ 64 →
      tb ≤ 8 * out.length →
      ∃ out1, put_chunks tb cs i0 out = some out1 ∧ out1.length = out.length ∧
        ((∀ x ∈ out, x < 256) → ∀ x ∈ out1, x < 256) ∧
        ∀ j, (stream_bit out1 j = true ↔
          (stream_bit out j = true ∨
            (32 * i0 ≤ j ∧ j < 32 * (i0 + cs.length) ∧ j < tb ∧
              (cs.getD (j / 32 - i0) 0).testBit (31 - j % 32) = true))) := by
  intro cs
  induction cs with
  | nil =>
    intro i0 out _ _
    refine ⟨out, rfl, rfl, fun h => h, ?_⟩
    intro j
    constructor
    · intro h
      exact Or.inl h
    · rintro (h | ⟨a1, a2, _, _⟩)
      · exact h
      · simp only [List.length_nil, Nat.add_zero] at a2
        omega
  | cons v vs ih =>
    intro i0 out hw hlen
    simp only [List.length_cons] at hw
    obtain ⟨o1, p1, p2, p3, p4⟩ := put_32_bits_spec tb v i0 out (by omega) hlen
    obtain ⟨o2, q1, q2, q3, q4⟩ := ih (i0 + 1) o1 (by omega) (by rw [p2]; exact hlen)
    unfold put_chunks
    simp only [p1]
    refine ⟨o2, q1, by rw [q2, p2], fun h => q3 (p3 h), ?_⟩
    intro j
    rw [q4 j, p4 j]
    simp only [List.length_cons]
    constructor
    · rintro ((h | ⟨a1, a2, a3, a4⟩) | ⟨a1, a2, a3, a4⟩)
      · exact Or.inl h
      · right
        have e : j / 32 - i0 = 0 := by omega
        rw [e]
        exact ⟨a1, by omega, a3, by simpa using a4⟩
      · right
        have e : j / 32 - i0 = (j / 32 - (i0 + 1)) + 1 := by omega
        rw [e]
        exact ⟨by omega, by omega, a3, by simpa using a4⟩
    · rintro (h | ⟨a1, a2, a3, a4⟩)
      · exact Or.inl (Or.inl h)
      · by_cases hj : j < 32 * i0 + 32
        · left
          right
          have e : j / 32 - i0 = 0 := by omega
          rw [e] at a4
          exact ⟨a1, hj, a3, by simpa using a4⟩
        · right
          have e : j / 32 - i0 = (j / 32 - (i0 + 1)) + 1 := by omega
          rw [e] at a4
          exact ⟨by omega, by omega, a3, by simpa using a4⟩

theorem stream_bit_replicate_zero (n j : Nat) :
    stream_bit (List.replicate n 0) j = false := by
  unfold stream_bit
  rw [List.getD_eq_getElem?_getD, List.getElem?_replicate]
  split <;> simp

theorem unpack_spec (cs : List Nat) (tb : Nat) (htb : tb < 2 ^ 64)
    (hlen : cs.length = chunk_count tb) :
    ∃ out, unpack cs tb = some out ∧ out.length = (tb + 7) / 8 ∧ (∀ x ∈ out, x < 256) ∧
      ∀ j, (stream_bit out j = true ↔
        (j < tb ∧ (cs.getD (j / 32) 0).testBit (31 - j % 32) = true)) := by
  unfold chunk_count at hlen
  obtain ⟨out, h1, h2, h3, h4⟩ := put_chunks_spec tb cs 0 (List.replicate ((tb + 7) / 8) 0)
    (by omega) (by rw [List.length_replicate]; omega)
  refine ⟨out, h1, by rw [h2, List.length_replicate], ?_, ?_⟩
  · apply h3
    intro x hx
    rw [List.eq_of_mem_replicate hx]
    norm_num
  · intro j
    rw [h4 j, stream_bit_replicate_zero]
    constructor
    · rintro (h | ⟨_, _, a3, a4⟩)
      · exact Bool.noConfusion h
      · exact ⟨a3, by simpa using a4⟩
    · rintro ⟨a3, a4⟩
      right
      exact ⟨by omega, by omega, a3, by simpa using a4⟩

/-- Two byte buffers of the same length with the same bit-stream are equal. -/
theorem eq_of_stream_bit_eq (a b : List Nat) (hl : a.length = b.length)
    (ha : ∀ x ∈ a, x < 256) (hb : ∀ x ∈ b, x < 256)
    (h : ∀ j, stream_bit a j = stream_bit b j) : a = b := by
  apply List.ext_getElem hl
  intro t h1 h2
  have hax : a[t] < 256 := ha _ (List.getElem_mem h1)
  have hbx : b[t] < 256 := hb _ (List.getElem_mem h2)
  apply Nat.eq_of_testBit_eq
  intro p
  by_cases hp : p < 8
  · have := h (8 * t + (7 - p))
    unfold stream_bit at this
    have e1 : (8 * t + (7 - p)) / 8 = t := by omega
    have e2 : 7 - (8 * t + (7 - p)) % 8 = p := by omega
    rw [e1, e2, List.getD_eq_getElem _ _ h1, List.getD_eq_getElem _ _ h2] at this
    exact this
  · have hpow : 2 ^ 8 ≤ 2 ^ p := Nat.pow_le_pow_right (by norm_num) (by omega)
    rw [Nat.testBit_lt_two_pow (lt_of_lt_of_le (by omega) hpow),
      Nat.testBit_lt_two_pow (lt_of_lt_of_le (by omega) hpow)]

theorem pack_chunks_spec (data : List Nat) (hlen : data.length < 2 ^ 61) :
    ∀ (n i : Nat), i + n ≤ 2 ^ 59 →
      ∃ cs, pack_chunks data data.length n i = some cs ∧ cs.length = n ∧
        ∀ t, t < n → get_32_bits data data.length (i + t) = some (cs.getD t 0) ∧
          cs.getD t 0 < 2 ^ 32 ∧
          ∀ k, k < 32 → (cs.getD t 0).testBit (31 - k) = window_bit data data.length (i + t) k := by
  intro n
  induction n with
  | zero =>
    intro i _
    exact ⟨[], rfl, rfl, fun t ht => absurd ht (Nat.not_lt_zero t)⟩
  | succ n ih =>
    intro i hi
    obtain ⟨r, hr, hrlt, hrb⟩ := get_32_bits_bits data i hlen (by omega)
    obtain ⟨cs, hcs, hcl, hcb⟩ := ih (i + 1) (by omega)
    unfold pack_chunks
    simp only [hr, hcs]
    refine ⟨r :: cs, rfl, by simp [hcl], ?_⟩
    intro t ht
    cases t with
    | zero => exact ⟨by simpa using hr, by simpa using hrlt, by simpa using hrb⟩
    | succ t =>
      have := hcb t (by omega)
      have e : i + 1 + t = i + (t + 1) := by omega
      rw [e] at this
      simpa using this

/-- A write outside the buffer is a fault of the model: with 16 bits to write into a
one-byte buffer, a set bit at position 8 makes `put_32_bits` fail. -/
theorem put_32_bits_fault_outside : put_32_bits [0] 16 0 0x00FF0000 = none := by
  decide

/-! ## The codec claims -/

theorem round_trip_core (b : List Nat) (hb : ∀ x ∈ b, x < 256)
    (hlen : b.length < 2 ^ 61) :
    ∃ cs, pack b = some cs ∧ cs.length = chunk_count (8 * b.length) ∧
      (∀ i, i < chunk_count (8 * b.length) →
        get_32_bits b b.length i = some (cs.getD i 0) ∧ cs.getD i 0 < 2 ^ 32) ∧
      put_chunks (8 * b.length) cs 0 (List.replicate b.length 0) = some b ∧
      unpack cs (8 * b.length) = some b := by
  have hcc : chunk_count (8 * b.length) ≤ 2 ^ 59 := by
    unfold chunk_count
    omega
  obtain ⟨cs, h1, h2, h3⟩ := pack_chunks_spec b hlen (chunk_count (8 * b.length)) 0
    (by omega)
  obtain ⟨out, u1, u2, u3, u4⟩ := unpack_spec cs (8 * b.length) (by omega) h2
  have hout : out = b := by
    apply eq_of_stream_bit_eq out b (by rw [u2]; omega) u3 hb
    intro j
    by_cases hj : j < 8 * b.length
    · have ht : j / 32 < chunk_count (8 * b.length) := by
        unfold chunk_count
        omega
      obtain ⟨_, _, hw⟩ := h3 (j / 32) ht
      have hw2 := hw (j % 32) (Nat.mod_lt _ (by norm_num))
      have e : 32 * (0 + j / 32) + j % 32 = j := by omega
      unfold window_bit at hw2
      rw [e, if_pos hj] at hw2
      cases hs : stream_bit b j
      · cases ho : stream_bit out j
        · rfl
        · have := ((u4 j).mp ho).2
          rw [hw2, hs] at this
          exact Bool.noConfusion this
      · apply (u4 j).mpr
        exact ⟨hj, by rw [hw2, hs]⟩
    · have hb0 : stream_bit b j = false := by
        unfold stream_bit
        rw [List.getD_eq_getElem?_getD, List.getElem?_eq_none (by omega)]
        simp
      rw [hb0]
      cases ho : stream_bit out j
      · rfl
      · exact absurd ((u4 j).mp ho).1 hj
  have hz : (8 * b.length + 7) / 8 = b.length := by omega
  refine ⟨cs, h1, h2, ?_, ?_, ?_⟩
  · intro i hi
    have := h3 i hi
    exact ⟨by simpa using this.1, this.2.1⟩
  · have := u1
    unfold unpack at this
    rw [hz, hout] at this
    exact this
  · rw [u1, hout]

/-- C1. Codec round trip: for every byte buffer `b` of length `L` (the empty buffer
included) whose bit count fits `size_t`, the chunks `c_i = get_32_bits(b, L, i)` for
`i` in `[0, ceil(8L/32))` all exist, and applying `put_32_bits(out, 8L, i, c_i)` for each
`i` in order to a zero-initialised `L`-byte buffer gives back exactly `b`. -/
theorem codec_round_trip (b : List Nat) (hb : ∀ x ∈ b, x < 256)
    (hlen : b.length < 2 ^ 61) :
    ∃ cs, pack b = some cs ∧ cs.length = chunk_count (8 * b.length) ∧
      (∀ i, i < chunk_count (8 * b.length) →
        get_32_bits b b.length i = some (cs.getD i 0)) ∧
      put_chunks (8 * b.length) cs 0 (List.replicate b.length 0) = some b ∧
      unpack cs (8 * b.length) = some b := by
  obtain ⟨cs, h1, h2, h3, h4, h5⟩ := round_trip_core b hb hlen
  exact ⟨cs, h1, h2, fun i hi => (h3 i hi).1, h4, h5⟩

/-- Witness of C1 on the five-byte buffer `de ad be ef 12`. -/
theorem codec_round_trip_witness :
    (∀ x ∈ [0xDE, 0xAD, 0xBE, 0xEF, 0x12], x < 256) ∧
    [0xDE, 0xAD, 0xBE, 0xEF, 0x12].length < 2 ^ 61 ∧
    ∃ cs, pack [0xDE, 0xAD, 0xBE, 0xEF, 0x12] = some cs ∧
      cs.length = chunk_count (8 * [0xDE, 0xAD, 0xBE, 0xEF, 0x12].length) ∧
      (∀ i, i < chunk_count (8 * [0xDE, 0xAD, 0xBE, 0xEF, 0x12].length) →
        get_32_bits [0xDE, 0xAD, 0xBE, 0xEF, 0x12] [0xDE, 0xAD, 0xBE, 0xEF, 0x12].length i
          = some (cs.getD i 0)) ∧
      put_chunks (8 * [0xDE, 0xAD, 0xBE, 0xEF, 0x12].length) cs 0
        (List.replicate [0xDE, 0xAD, 0xBE, 0xEF, 0x12].length 0)
          = some [0xDE, 0xAD, 0xBE, 0xEF, 0x12] ∧
      unpack cs (8 * [0xDE, 0xAD, 0xBE, 0xEF, 0x12].length)
        = some [0xDE, 0xAD, 0xBE, 0xEF, 0x12] :=
  ⟨by decide, by decide,
    codec_round_trip [0xDE, 0xAD, 0xBE, 0xEF, 0x12] (by decide) (by decide)⟩

/-- C2 (counterexample). `get_32_bits` is not the zero-padded window for every chunk
index: at `i = 2^59` the `size_t` product `chunk_index * 32` wraps to 0, so on the
five-byte buffer `de ad be ef 12` the function returns chunk 0, `0xdeadbeef`, while
every bit `32 i + k` lies beyond the buffer and the window (bit-wise and as big-endian
bytes) is 0. -/
theorem get_32_bits_index_wraps :
    get_32_bits [0xDE, 0xAD, 0xBE, 0xEF, 0x12] 5 (2 ^ 59) = some 0xDEADBEEF ∧
    be32_window [0xDE, 0xAD, 0xBE, 0xEF, 0x12] 5 (2 ^ 59) = 0 ∧
    (∀ k, k < 32 → window_bit [0xDE, 0xAD, 0xBE, 0xEF, 0x12] 5 (2 ^ 59) k = false) := by
  decide

/-- C2 (amended). `get_32_bits` is the MSB-first 32-bit window with zero padding: for
every buffer `data` of `len` bytes with `len < 2^61` and every chunk index `i < 2^59`
(the range in which the `size_t` products `len * 8` and `chunk_index * 32` do not wrap;
indices past the end of the buffer included), the result `r` is a 32-bit value whose
bit `31 - k` is bit number `32 i + k` of the bit-stream when `32 i + k < 8 * len` and `0`
otherwise; equivalently `r` is the big-endian combination of bytes `4 i .. 4 i + 3`,
bytes at index `>= len` read as `0`. -/
theorem get_32_bits_window (data : List Nat) (i : Nat) (hb : ∀ x ∈ data, x < 256)
    (hlen : data.length < 2 ^ 61) (hi : i < 2 ^ 59) :
    ∃ r, get_32_bits data data.length i = some r ∧ r < 2 ^ 32 ∧
      (∀ k, k < 32 → r.testBit (31 - k) = window_bit data data.length i k) ∧
      r = be32_window data data.length i := by
  obtain ⟨r, h1, h2, h3⟩ := get_32_bits_bits data i hlen hi
  refine ⟨r, h1, h2, h3, ?_⟩
  have l0 := byte_or_zero_lt data hb data.length (4 * i)
  have l1 := byte_or_zero_lt data hb data.length (4 * i + 1)
  have l2 := byte_or_zero_lt data hb data.length (4 * i + 2)
  have l3 := byte_or_zero_lt data hb data.length (4 * i + 3)
  apply eq_of_testBit_top32 r _ h2 (be32_lt _ _ _ _ l0 l1 l2 l3)
  intro k hk
  rw [h3 k hk]
  rw [be32_testBit _ _ _ _ l1 l2 l3 k hk, window_bit_eq_bytes data i k hk]

/-- Witness of the amended C2 on the last, partial chunk of a five-byte buffer. -/
theorem get_32_bits_window_witness :
    (∀ x ∈ [0xDE, 0xAD, 0xBE, 0xEF, 0x12], x < 256) ∧
    [0xDE, 0xAD, 0xBE, 0xEF, 0x12].length < 2 ^ 61 ∧ 1 < 2 ^ 59 ∧
    ∃ r, get_32_bits [0xDE, 0xAD, 0xBE, 0xEF, 0x12] [0xDE, 0xAD, 0xBE, 0xEF, 0x12].length 1
        = some r ∧ r < 2 ^ 32 ∧
      (∀ k, k < 32 → r.testBit (31 - k)
        = window_bit [0xDE, 0xAD, 0xBE, 0xEF, 0x12] [0xDE, 0xAD, 0xBE, 0xEF, 0x12].length 1 k) ∧
      r = be32_window [0xDE, 0xAD, 0xBE, 0xEF, 0x12] [0xDE, 0xAD, 0xBE, 0xEF, 0x12].length 1 :=
  ⟨by decide, by decide, by decide,
    get_32_bits_window [0xDE, 0xAD, 0xBE, 0xEF, 0x12] 1 (by decide) (by decide) (by decide)⟩

/-- C3. `unpack` writes only up to `total_bits`: for every `total_bits` (a `size_t`),
every chunk sequence of `ceil(total_bits/32)` values and a zero-initialised buffer of
`ceil(total_bits/8)` bytes, applying `put_32_bits` for every chunk index succeeds without
touching a byte outside the buffer (an access at a byte index `>= ceil(total_bits/8)`
would make the result `none`); afterwards every bit position `j < total_bits` equals bit
`31 - (j mod 32)` of chunk `j div 32`, and every bit position `>= total_bits` is zero. -/
theorem unpack_writes_only_total_bits (total_bits : Nat) (cs : List Nat)
    (htb : total_bits < 2 ^ 64) (hlen : cs.length = chunk_count total_bits) :
    ∃ out, put_chunks total_bits cs 0 (List.replicate ((total_bits + 7) / 8) 0) = some out ∧
      out.length = (total_bits + 7) / 8 ∧
      (∀ j, j < total_bits →
        stream_bit out j = (cs.getD (j / 32) 0).testBit (31 - j % 32)) ∧
      (∀ j, total_bits ≤ j → stream_bit out j = false) := by
  obtain ⟨out, u1, u2, _, u4⟩ := unpack_spec cs total_bits htb hlen
  refine ⟨out, u1, u2, ?_, ?_⟩
  · intro j hj
    cases hc : (cs.getD (j / 32) 0).testBit (31 - j % 32)
    · cases ho : stream_bit out j
      · rfl
      · have := ((u4 j).mp ho).2
        rw [hc] at this
        exact Bool.noConfusion this
    · exact (u4 j).mpr ⟨hj, hc⟩
  · intro j hj
    cases ho : stream_bit out j
    · rfl
    · have := ((u4 j).mp ho).1
      omega

/-- Witness of C3: thirteen bits of an all-ones chunk. -/
theorem unpack_writes_only_total_bits_witness :
    13 < 2 ^ 64 ∧ [0xFFFFFFFF].length = chunk_count 13 ∧
    ∃ out, put_chunks 13 [0xFFFFFFFF] 0 (List.replicate ((13 + 7) / 8) 0) = some out ∧
      out.length = (13 + 7) / 8 ∧
      (∀ j, j < 13 →
        stream_bit out j = (([0xFFFFFFFF] : List Nat).getD (j / 32) 0).testBit (31 - j % 32)) ∧
      (∀ j, 13 ≤ j → stream_bit out j = false) :=
  ⟨by decide, by decide, unpack_writes_only_total_bits 13 [0xFFFFFFFF] (by decide) (by decide)⟩

/-! ## Lemmas on the generator and on batches -/

theorem rng_after_add (a b : Nat) :
    ∀ st, rng_after (a + b) st = rng_after b (rng_after a st) := by
  induction a with
  | zero =>
    intro st
    simp [rng_after]
  | succ a ih =>
    intro st
    have e : a + 1 + b = (a + b) + 1 := by omega
    rw [e]
    simp only [rng_after]
    exact ih _

theorem rng_fill32_state (st : xorshift128plus_state) :
    (rng_fill32 st).2 = rng_after 4 st := rfl

theorem fill_batch_loop_spec :
    ∀ (n : Nat) (st : xorshift128plus_state) (filled : List (List Nat)),
      (fill_batch_loop n st filled).2 = rng_after (4 * n) st ∧
      (fill_batch_loop n st filled).1 =
        filled.reverse ++ (List.range n).map (fun k => (rng_fill32 (rng_after (4 * k) st)).1) := by
  intro n
  induction n with
  | zero =>
    intro st filled
    simp [fill_batch_loop, rng_after]
  | succ n ih =>
    intro st filled
    obtain ⟨h1, h2⟩ := ih (rng_fill32 st).2 ((rng_fill32 st).1 :: filled)
    have hstep : ∀ k, rng_after (4 * k) (rng_fill32 st).2 = rng_after (4 * (k + 1)) st := by
      intro k
      rw [rng_fill32_state, ← rng_after_add]
      congr 1
      omega
    constructor
    · show (fill_batch_loop n (rng_fill32 st).2 ((rng_fill32 st).1 :: filled)).2 = _
      rw [h1, hstep]
    · show (fill_batch_loop n (rng_fill32 st).2 ((rng_fill32 st).1 :: filled)).1 = _
      rw [h2, List.range_succ_eq_map]
      simp only [List.reverse_cons, List.map_cons, List.map_map, List.append_assoc,
        List.singleton_append, hstep]
      rfl

theorem fill_batch_state (n : Nat) (st : xorshift128plus_state) :
    (fill_batch n st).2 = rng_after (4 * n) st :=
  (fill_batch_loop_spec n st []).1

theorem fill_batch_getD (n : Nat) (st : xorshift128plus_state) (k : Nat) (hk : k < n) :
    (fill_batch n st).1.getD k [] = (rng_fill32 (rng_after (4 * k) st)).1 := by
  unfold fill_batch
  rw [(fill_batch_loop_spec n st []).2]
  simp [List.getD_eq_getElem?_getD, List.getElem?_map, List.getElem?_range hk]

/-! ## Lemmas on the rounds of a grind -/

section rounds

variable {σ : Type} (gpu : σ → Nat → List (List Nat) → GpuAnswer × σ) (v : Nat)

theorem nth_answer_succ (s : GrindState σ) (j : Nat) :
    nth_answer gpu v s (j + 1) = nth_answer gpu v (after_round gpu v s) j := rfl

theorem attempts_sum_succ (s : GrindState σ) (m : Nat) :
    attempts_sum gpu v s (m + 1) =
      (round_answer gpu v s).attempts + attempts_sum gpu v (after_round gpu v s) m := by
  induction m with
  | zero => simp [attempts_sum, nth_answer, round_state]
  | succ m ih =>
    have e1 : attempts_sum gpu v s (m + 1 + 1)
        = attempts_sum gpu v s (m + 1) + (nth_answer gpu v s (m + 1)).attempts := rfl
    have e2 : attempts_sum gpu v (after_round gpu v s) (m + 1)
        = attempts_sum gpu v (after_round gpu v s) m
          + (nth_answer gpu v (after_round gpu v s) m).attempts := rfl
    rw [e1, e2, ih, nth_answer_succ]
    omega

theorem round_state_fields :
    ∀ (j : Nat) (s : GrindState σ),
      (round_state gpu v j s).priv_out = s.priv_out ∧
      (round_state gpu v j s).attempts_out = s.attempts_out ∧
      (round_state gpu v j s).calls = s.calls + j ∧
      (round_state gpu v j s).g_rng = rng_after (4 * GPU_BATCH_SIZE * j) s.g_rng := by
  intro j
  induction j with
  | zero =>
    intro s
    simp [round_state, rng_after]
  | succ j ih =>
    intro s
    obtain ⟨h1, h2, h3, h4⟩ := ih (after_round gpu v s)
    have e : (after_round gpu v s).g_rng = rng_after (4 * GPU_BATCH_SIZE) s.g_rng := by
      unfold after_round
      exact fill_batch_state GPU_BATCH_SIZE s.g_rng
    refine ⟨h1, h2, ?_, ?_⟩
    · show (round_state gpu v j (after_round gpu v s)).calls = _
      rw [h3]
      show s.calls + 1 + j = _
      omega
    · show (round_state gpu v j (after_round gpu v s)).g_rng = _
      have e4 : 4 * GPU_BATCH_SIZE + 4 * GPU_BATCH_SIZE * j = 4 * GPU_BATCH_SIZE * (j + 1) := by
        generalize GPU_BATCH_SIZE = B
        ring
      rw [h4, e, ← rng_after_add, e4]

theorem grind_loop_succ (fuel total : Nat) (s : GrindState σ) :
    grind_loop gpu v (fuel + 1) total s =
      if (round_answer gpu v s).ok = 0 then
        if (round_answer gpu v s).attempts = 0 then some (0, after_round gpu v s)
        else grind_loop gpu v fuel ((total + (round_answer gpu v s).attempts) % SIZE_MOD)
          (after_round gpu v s)
      else
        if (round_answer gpu v s).match_index < 0 ∨
            (round_answer gpu v s).match_index ≥ (GPU_BATCH_SIZE : Int) then
          some (0, after_round gpu v s)
        else
          some (1, ⟨(fill_batch GPU_BATCH_SIZE s.g_rng).1.getD
              (round_answer gpu v s).match_index.toNat [],
            (after_round gpu v s).pub_out,
            s.attempts_out.map
              (fun _ => (total + (round_answer gpu v s).attempts) % SIZE_MOD),
            (after_round gpu v s).g_rng, (after_round gpu v s).gpu, s.calls + 1⟩) := by
  rw [grind_loop]
  unfold after_round round_answer
  rfl

/-- While the collaborator reports "not found" with a non-zero attempt count the loop
goes on, adding the attempts to the running total. -/
theorem grind_loop_misses :
    ∀ (j fuel total : Nat) (s : GrindState σ),
      (∀ i, i < j → (nth_answer gpu v s i).ok = 0 ∧ 0 < (nth_answer gpu v s i).attempts) →
      grind_loop gpu v (fuel + j) total s =
        grind_loop gpu v fuel ((total + attempts_sum gpu v s j) % SIZE_MOD)
          (round_state gpu v j s) := by
  intro j
  induction j with
  | zero =>
    intro fuel total s _
    cases fuel with
    | zero => rfl
    | succ fuel =>
      rw [Nat.add_zero, grind_loop_succ, grind_loop_succ]
      simp only [attempts_sum, Nat.add_zero, round_state, Nat.mod_add_mod]
  | succ j ih =>
    intro fuel total s h
    have h0 := h 0 (by omega)
    have e : fuel + (j + 1) = (fuel + j) + 1 := by omega
    rw [e, grind_loop_succ]
    have a0 : (round_answer gpu v s).ok = 0 := h0.1
    have a1 : ¬ ((round_answer gpu v s).attempts = 0) := by
      have := h0.2
      show ¬ ((nth_answer gpu v s 0).attempts = 0)
      omega
    rw [if_pos a0, if_neg a1]
    rw [ih fuel _ (after_round gpu v s) (fun i hi => h (i + 1) (by omega))]
    rw [attempts_sum_succ]
    have e2 : ((total + (round_answer gpu v s).attempts) % SIZE_MOD
        + attempts_sum gpu v (after_round gpu v s) j) % SIZE_MOD
        = (total + ((round_answer gpu v s).attempts
          + attempts_sum gpu v (after_round gpu v s) j)) % SIZE_MOD := by
      rw [Nat.mod_add_mod, Nat.add_assoc]
    rw [e2]
    rfl

end rounds

/-! ## The grind engine claims -/

/-- C4 (counterexample). The reported attempt total is not always the sum of the
reported attempts: when the collaborator answers the first batch with found = false and
`2^64 - 1` attempts and the second with found = true, slot 0 and 2 attempts, the sum is
`2^64 + 1` but the `uint64_t` accumulator wraps and `grind_for_32bit_value_gpu` reports
the total 1. -/
theorem attempts_total_wraps :
    attempts_sum stub_overflow 7 stub_memory 2 = 2 ^ 64 + 1 ∧
    (grind_for_32bit_value_gpu stub_overflow 2 7 stub_memory).map
      (fun r => (r.1, r.2.attempts_out, r.2.calls)) = some (1, some 1, 2) := by
  constructor
  · decide
  · with_unfolding_all decide

/-- C4 (amended). Grind success result: for every generator state and every collaborator
that answers the first `n` batches with found = false and a non-zero `attempts_tested`,
and batch number `n + 1` with found = true, `match_index = k` in `[0, 16384)`, public key
`P`, `grind_for_32bit_value_gpu` (given enough iterations) returns success with the
private key equal to slot `k` of that batch, i.e. the four consecutive generator outputs
produced after `4 * (16384 * n + k)` generator steps, the public key `P`, and the attempt
total `a_1 + ... + a_(n+1)` reduced modulo `2^64`, which is `a_1 + ... + a_(n+1)` itself
whenever that sum is below `2^64`, after exactly `n + 1` collaborator calls. -/
theorem grind_success {σ : Type} (gpu : σ → Nat → List (List Nat) → GpuAnswer × σ)
    (v : Nat) (s : GrindState σ) (n k : Nat) (P : List Nat) (fuel : Nat)
    (hmiss : ∀ j, j < n →
      (nth_answer gpu v s j).ok = 0 ∧ 0 < (nth_answer gpu v s j).attempts)
    (hfound : (nth_answer gpu v s n).ok ≠ 0)
    (hidx : (nth_answer gpu v s n).match_index = (k : Int)) (hk : k < GPU_BATCH_SIZE)
    (hpub : (nth_answer gpu v s n).pub = some P) (hfuel : n < fuel) :
    ∃ r, grind_for_32bit_value_gpu gpu fuel v s = some (1, r) ∧
      r.priv_out = (rng_fill32 (rng_after (4 * (GPU_BATCH_SIZE * n + k)) s.g_rng)).1 ∧
      r.pub_out = P ∧
      r.attempts_out = s.attempts_out.map (fun _ => attempts_sum gpu v s (n + 1) % SIZE_MOD) ∧
      (attempts_sum gpu v s (n + 1) < SIZE_MOD →
        r.attempts_out = s.attempts_out.map (fun _ => attempts_sum gpu v s (n + 1))) ∧
      r.calls = s.calls + (n + 1) := by
  obtain ⟨f, hf⟩ : ∃ f, fuel = (f + 1) + n := ⟨fuel - n - 1, by omega⟩
  subst hf
  unfold grind_for_32bit_value_gpu
  rw [grind_loop_misses gpu v n (f + 1) 0 s hmiss, grind_loop_succ]
  have hans : round_answer gpu v (round_state gpu v n s) = nth_answer gpu v s n := rfl
  rw [hans, if_neg hfound]
  have hkI : (k : Int) < (GPU_BATCH_SIZE : Int) := by exact_mod_cast hk
  have hrange : ¬ ((nth_answer gpu v s n).match_index < 0 ∨
      (nth_answer gpu v s n).match_index ≥ (GPU_BATCH_SIZE : Int)) := by
    rw [hidx]
    omega
  rw [if_neg hrange]
  obtain ⟨f1, f2, f3, f4⟩ := round_state_fields gpu v n s
  have htot : ((0 + attempts_sum gpu v s n) % SIZE_MOD + (nth_answer gpu v s n).attempts)
      % SIZE_MOD = attempts_sum gpu v s (n + 1) % SIZE_MOD := by
    rw [Nat.mod_add_mod, Nat.zero_add]
    rfl
  refine ⟨_, rfl, ?_, ?_, ?_, ?_, ?_⟩
  · show (fill_batch GPU_BATCH_SIZE (round_state gpu v n s).g_rng).1.getD
      (nth_answer gpu v s n).match_index.toNat [] = _
    have e4 : 4 * GPU_BATCH_SIZE * n + 4 * k = 4 * (GPU_BATCH_SIZE * n + k) := by
      generalize GPU_BATCH_SIZE = B
      ring
    rw [hidx, Int.toNat_ofNat, fill_batch_getD _ _ k hk, f4, ← rng_after_add, e4]
  · show (after_round gpu v (round_state gpu v n s)).pub_out = P
    unfold after_round
    show (round_answer gpu v (round_state gpu v n s)).pub.getD _ = P
    rw [hans, hpub]
    rfl
  · show (round_state gpu v n s).attempts_out.map _ = _
    rw [f2, htot]
  · intro hlt
    show (round_state gpu v n s).attempts_out.map _ = _
    rw [f2, htot, Nat.mod_eq_of_lt hlt]
  · show (round_state gpu v n s).calls + 1 = _
    rw [f3]
    omega

/-- Witness of the amended C4: a miss on the first batch (16384 tested), then a match in
slot 2 of the second batch after 3 attempts. -/
theorem grind_success_witness :
    (∀ j, j < 1 → (nth_answer stub_second_batch 0 stub_memory j).ok = 0 ∧
      0 < (nth_answer stub_second_batch 0 stub_memory j).attempts) ∧
    (nth_answer stub_second_batch 0 stub_memory 1).ok ≠ 0 ∧
    (nth_answer stub_second_batch 0 stub_memory 1).match_index = ((2 : Nat) : Int) ∧
    2 < GPU_BATCH_SIZE ∧
    (nth_answer stub_second_batch 0 stub_memory 1).pub = some (List.replicate 33 2) ∧
    ∃ r, grind_for_32bit_value_gpu stub_second_batch 2 0 stub_memory = some (1, r) ∧
      r.priv_out
        = (rng_fill32 (rng_after (4 * (GPU_BATCH_SIZE * 1 + 2)) stub_memory.g_rng)).1 ∧
      r.pub_out = List.replicate 33 2 ∧
      r.attempts_out = stub_memory.attempts_out.map
        (fun _ => attempts_sum stub_second_batch 0 stub_memory (1 + 1) % SIZE_MOD) ∧
      (attempts_sum stub_second_batch 0 stub_memory (1 + 1) < SIZE_MOD →
        r.attempts_out = stub_memory.attempts_out.map
          (fun _ => attempts_sum stub_second_batch 0 stub_memory (1 + 1))) ∧
      r.calls = stub_memory.calls + (1 + 1) :=
  have h1 : ∀ j, j < 1 → (nth_answer stub_second_batch 0 stub_memory j).ok = 0 ∧
      0 < (nth_answer stub_second_batch 0 stub_memory j).attempts := by
    intro j hj
    have : j = 0 := by omega
    subst this
    decide
  have h2 : 2 < GPU_BATCH_SIZE := by
    unfold GPU_BATCH_SIZE
    decide
  ⟨h1, by decide, by decide, h2, by decide,
    grind_success stub_second_batch 0 stub_memory 1 2 (List.replicate 33 2) 2 h1
      (by decide) (by decide) h2 (by decide) (by decide)⟩

theorem round_state_succ {σ : Type} (gpu : σ → Nat → List (List Nat) → GpuAnswer × σ)
    (v : Nat) : ∀ (j : Nat) (s : GrindState σ),
      round_state gpu v (j + 1) s = after_round gpu v (round_state gpu v j s) := by
  intro j
  induction j with
  | zero =>
    intro s
    rfl
  | succ j ih =>
    intro s
    show round_state gpu v (j + 1) (after_round gpu v s) = _
    rw [ih]
    rfl

/-- C5. Protocol violations are fatal in the full-32-bit engine: if, after `j` ordinary
"not found" batches, a `gpu_search_batch` call returns found = false with
`attempts_tested == 0`, or found = true with `match_index` outside `[0, 16384)`, then
`grind_for_32bit_value_gpu` of keygrinder returns `0` right after that call: exactly
`j + 1` batches were generated and searched, and neither the private-key buffer nor the
attempt-total cell of the caller was written. -/
theorem protocol_violation_fatal {σ : Type}
    (gpu : σ → Nat → List (List Nat) → GpuAnswer × σ)
    (v : Nat) (s : GrindState σ) (j fuel : Nat)
    (hmiss : ∀ i, i < j →
      (nth_answer gpu v s i).ok = 0 ∧ 0 < (nth_answer gpu v s i).attempts)
    (hviol : ((nth_answer gpu v s j).ok = 0 ∧ (nth_answer gpu v s j).attempts = 0) ∨
      ((nth_answer gpu v s j).ok ≠ 0 ∧ ((nth_answer gpu v s j).match_index < 0 ∨
        (nth_answer gpu v s j).match_index ≥ (GPU_BATCH_SIZE : Int))))
    (hfuel : j < fuel) :
    ∃ r, grind_for_32bit_value_gpu gpu fuel v s = some (0, r) ∧
      r = round_state gpu v (j + 1) s ∧
      r.priv_out = s.priv_out ∧ r.attempts_out = s.attempts_out ∧
      r.calls = s.calls + (j + 1) ∧
      r.g_rng = rng_after (4 * GPU_BATCH_SIZE * (j + 1)) s.g_rng := by
  obtain ⟨f, hf⟩ : ∃ f, fuel = (f + 1) + j := ⟨fuel - j - 1, by omega⟩
  subst hf
  obtain ⟨f1, f2, f3, f4⟩ := round_state_fields gpu v (j + 1) s
  refine ⟨round_state gpu v (j + 1) s, ?_, rfl, f1, f2, f3, f4⟩
  unfold grind_for_32bit_value_gpu
  rw [grind_loop_misses gpu v j (f + 1) 0 s hmiss, grind_loop_succ, round_state_succ]
  have hans : round_answer gpu v (round_state gpu v j s) = nth_answer gpu v s j := rfl
  rw [hans]
  rcases hviol with ⟨h1, h2⟩ | ⟨h1, h2⟩
  · rw [if_pos h1, if_pos h2]
  · rw [if_neg h1, if_pos h2]

/-- Witness of C5: the collaborator reports "not found, 0 tested" on the first batch. -/
theorem protocol_violation_fatal_witness :
    (∀ i, i < 0 → (nth_answer stub_error_first 7 stub_memory i).ok = 0 ∧
      0 < (nth_answer stub_error_first 7 stub_memory i).attempts) ∧
    (((nth_answer stub_error_first 7 stub_memory 0).ok = 0 ∧
        (nth_answer stub_error_first 7 stub_memory 0).attempts = 0) ∨
      ((nth_answer stub_error_first 7 stub_memory 0).ok ≠ 0 ∧
        ((nth_answer stub_error_first 7 stub_memory 0).match_index < 0 ∨
          (nth_answer stub_error_first 7 stub_memory 0).match_index
            ≥ (GPU_BATCH_SIZE : Int)))) ∧
    0 < 3 ∧
    ∃ r, grind_for_32bit_value_gpu stub_error_first 3 7 stub_memory = some (0, r) ∧
      r = round_state stub_error_first 7 (0 + 1) stub_memory ∧
      r.priv_out = stub_memory.priv_out ∧ r.attempts_out = stub_memory.attempts_out ∧
      r.calls = stub_memory.calls + (0 + 1) ∧
      r.g_rng = rng_after (4 * GPU_BATCH_SIZE * (0 + 1)) stub_memory.g_rng :=
  have h1 : ∀ i, i < 0 → (nth_answer stub_error_first 7 stub_memory i).ok = 0 ∧
      0 < (nth_answer stub_error_first 7 stub_memory i).attempts :=
    fun i hi => absurd hi (Nat.not_lt_zero i)
  have h2 : ((nth_answer stub_error_first 7 stub_memory 0).ok = 0 ∧
        (nth_answer stub_error_first 7 stub_memory 0).attempts = 0) ∨
      ((nth_answer stub_error_first 7 stub_memory 0).ok ≠ 0 ∧
        ((nth_answer stub_error_first 7 stub_memory 0).match_index < 0 ∨
          (nth_answer stub_error_first 7 stub_memory 0).match_index
            ≥ (GPU_BATCH_SIZE : Int))) :=
    Or.inl ⟨by decide, by decide⟩
  ⟨h1, h2, by decide,
    protocol_violation_fatal stub_error_first 7 stub_memory 0 3 h1 h2 (by decide)⟩

/-- C6 (the code at the failing input). The masked engine of xgrind does not abort on a
protocol violation: when the collaborator answers its first call with found = false and
`attempts_tested == 0`, `grind_for_32bit_value_gpu` of xgrind generates a second batch,
calls the collaborator a second time and returns success from that second answer. -/
theorem xgrind_retries_after_violation :
    (Xgrind.grind_for_32bit_value_gpu stub_error_first_masked 2 7 0xFFFF0000
        stub_memory).map (fun r => (r.1, r.2.calls, r.2.attempts_out, r.2.gpu))
      = some (1, 2, some 1, 2) := by
  with_unfolding_all decide

/-! ## The attempt total -/

theorem grind_loop_success_inv {σ : Type}
    (gpu : σ → Nat → List (List Nat) → GpuAnswer × σ) (v : Nat) :
    ∀ (fuel total : Nat) (s r : GrindState σ),
      grind_loop gpu v fuel total s = some (1, r) →
      ∃ n, n < fuel ∧ (nth_answer gpu v s n).ok ≠ 0 ∧
        r.attempts_out
          = s.attempts_out.map (fun _ => (total + attempts_sum gpu v s (n + 1)) % SIZE_MOD) := by
  intro fuel
  induction fuel with
  | zero =>
    intro total s r h
    simp [grind_loop] at h
  | succ fuel ih =>
    intro total s r h
    rw [grind_loop_succ] at h
    by_cases hok : (round_answer gpu v s).ok = 0
    · rw [if_pos hok] at h
      by_cases hz : (round_answer gpu v s).attempts = 0
      · rw [if_pos hz] at h
        simp at h
      · rw [if_neg hz] at h
        obtain ⟨n, hn, hf, ha⟩ := ih _ _ _ h
        refine ⟨n + 1, by omega, hf, ?_⟩
        rw [ha, attempts_sum_succ gpu v s (n + 1), Nat.mod_add_mod, Nat.add_assoc]
        rfl
    · rw [if_neg hok] at h
      by_cases hidx : (round_answer gpu v s).match_index < 0 ∨
          (round_answer gpu v s).match_index ≥ (GPU_BATCH_SIZE : Int)
      · rw [if_pos hidx] at h
        simp at h
      · rw [if_neg hidx] at h
        refine ⟨0, by omega, hok, ?_⟩
        have hr := (Prod.mk.inj (Option.some.inj h)).2
        rw [← hr]
        simp [attempts_sum, nth_answer, round_state]

theorem xgrind_grind_loop_succ {σ : Type}
    (gpu : σ → Nat → Nat → List (List Nat) → GpuAnswer × σ) (v mask fuel total : Nat)
    (s : GrindState σ) :
    Xgrind.grind_loop gpu v mask (fuel + 1) total s =
      if (round_answer (fun g w b => gpu g w mask b) v s).ok ≠ 0 ∧
          (round_answer (fun g w b => gpu g w mask b) v s).match_index ≥ 0 ∧
          (round_answer (fun g w b => gpu g w mask b) v s).match_index
            < (GPU_BATCH_SIZE : Int) then
        some (1, ⟨(fill_batch GPU_BATCH_SIZE s.g_rng).1.getD
            (round_answer (fun g w b => gpu g w mask b) v s).match_index.toNat [],
          (after_round (fun g w b => gpu g w mask b) v s).pub_out,
          s.attempts_out.map (fun _ =>
            (total + (round_answer (fun g w b => gpu g w mask b) v s).attempts) % SIZE_MOD),
          (after_round (fun g w b => gpu g w mask b) v s).g_rng,
          (after_round (fun g w b => gpu g w mask b) v s).gpu, s.calls + 1⟩)
      else
        Xgrind.grind_loop gpu v mask fuel
          ((total + (round_answer (fun g w b => gpu g w mask b) v s).attempts) % SIZE_MOD)
          (after_round (fun g w b => gpu g w mask b) v s) := by
  rw [Xgrind.grind_loop]
  unfold after_round round_answer
  rfl

theorem xgrind_grind_loop_success_inv {σ : Type}
    (gpu : σ → Nat → Nat → List (List Nat) → GpuAnswer × σ) (v mask : Nat) :
    ∀ (fuel total : Nat) (s : GrindState σ) (ret : Int) (r : GrindState σ),
      Xgrind.grind_loop gpu v mask fuel total s = some (ret, r) →
      ret = 1 ∧ ∃ n, n < fuel ∧ (nth_answer (fun g w b => gpu g w mask b) v s n).ok ≠ 0 ∧
        r.attempts_out = s.attempts_out.map (fun _ =>
          (total + attempts_sum (fun g w b => gpu g w mask b) v s (n + 1)) % SIZE_MOD) := by
  intro fuel
  induction fuel with
  | zero =>
    intro total s ret r h
    simp [Xgrind.grind_loop] at h
  | succ fuel ih =>
    intro total s ret r h
    rw [xgrind_grind_loop_succ] at h
    by_cases hok : (round_answer (fun g w b => gpu g w mask b) v s).ok ≠ 0 ∧
          (round_answer (fun g w b => gpu g w mask b) v s).match_index ≥ 0 ∧
          (round_answer (fun g w b => gpu g w mask b) v s).match_index
            < (GPU_BATCH_SIZE : Int)
    · rw [if_pos hok] at h
      have hp := Prod.mk.inj (Option.some.inj h)
      refine ⟨hp.1.symm, 0, by omega, hok.1, ?_⟩
      rw [← hp.2]
      simp [attempts_sum, nth_answer, round_state]
    · rw [if_neg hok] at h
      obtain ⟨hret, n, hn, hf, ha⟩ := ih _ _ _ _ h
      refine ⟨hret, n + 1, by omega, hf, ?_⟩
      rw [ha, attempts_sum_succ (fun g w b => gpu g w mask b) v s (n + 1), Nat.mod_add_mod,
        Nat.add_assoc]
      rfl

theorem attempts_sum_mono {σ : Type} (gpu : σ → Nat → List (List Nat) → GpuAnswer × σ)
    (v : Nat) (s : GrindState σ) (n : Nat) :
    (nth_answer gpu v s n).attempts ≤ attempts_sum gpu v s (n + 1) := by
  show _ ≤ attempts_sum gpu v s n + (nth_answer gpu v s n).attempts
  omega

/-- C7 (counterexample). A successful grind can report an attempt total of zero: when the
collaborator answers the first batch with found = true, slot 0 and `attempts_tested == 0`,
`grind_for_32bit_value_gpu` of keygrinder returns success and stores the total `0`. -/
theorem attempts_total_zero :
    (grind_for_32bit_value_gpu stub_zero_attempts 1 7 stub_memory).map
      (fun r => (r.1, r.2.attempts_out)) = some (1, some 0) := by
  with_unfolding_all decide

/-- C7 (amended). Attempt counter lower bound: in both the full-32-bit and the masked
engine, whenever `grind_for_32bit_value_gpu` returns success, the attempt total it reports
is at least 1, provided the collaborator reports at least one attempt with each
found = true answer and the sum of the reported attempts stays within `uint64_t`. -/
theorem attempts_total_pos {σ τ : Type}
    (gpu : σ → Nat → List (List Nat) → GpuAnswer × σ)
    (gpuM : τ → Nat → Nat → List (List Nat) → GpuAnswer × τ)
    (v mask fuel : Nat) (s : GrindState σ) (sM : GrindState τ)
    (hpos : ∀ j, (nth_answer gpu v s j).ok ≠ 0 → 1 ≤ (nth_answer gpu v s j).attempts)
    (hsum : ∀ m, m ≤ fuel → attempts_sum gpu v s m < SIZE_MOD)
    (hposM : ∀ j, (nth_answer (fun g w b => gpuM g w mask b) v sM j).ok ≠ 0 →
      1 ≤ (nth_answer (fun g w b => gpuM g w mask b) v sM j).attempts)
    (hsumM : ∀ m, m ≤ fuel →
      attempts_sum (fun g w b => gpuM g w mask b) v sM m < SIZE_MOD) :
    (∀ r t, grind_for_32bit_value_gpu gpu fuel v s = some (1, r) →
      r.attempts_out = some t → 1 ≤ t) ∧
    (∀ r t, Xgrind.grind_for_32bit_value_gpu gpuM fuel v mask sM = some (1, r) →
      r.attempts_out = some t → 1 ≤ t) := by
  constructor
  · intro r t h ht
    obtain ⟨n, hn, hf, ha⟩ := grind_loop_success_inv gpu v fuel 0 s r h
    rw [ht, Nat.zero_add, Nat.mod_eq_of_lt (hsum (n + 1) (by omega))] at ha
    have h1 := hpos n hf
    have h2 := attempts_sum_mono gpu v s n
    cases hs : s.attempts_out with
    | none =>
      rw [hs] at ha
      simp at ha
    | some x =>
      rw [hs] at ha
      simp only [Option.map_some', Option.some.injEq] at ha
      omega
  · intro r t h ht
    obtain ⟨_, n, hn, hf, ha⟩ := xgrind_grind_loop_success_inv gpuM v mask fuel 0 sM 1 r h
    rw [ht, Nat.zero_add, Nat.mod_eq_of_lt (hsumM (n + 1) (by omega))] at ha
    have h1 := hposM n hf
    have h2 := attempts_sum_mono (fun g w b => gpuM g w mask b) v sM n
    cases hs : sM.attempts_out with
    | none =>
      rw [hs] at ha
      simp at ha
    | some x =>
      rw [hs] at ha
      simp only [Option.map_some', Option.some.injEq] at ha
      omega

/-- Witness of the amended C7: collaborators that match on the first candidate and report
one attempt. -/
theorem attempts_total_pos_witness :
    (∀ j, (nth_answer stub_first_candidate 7 stub_memory j).ok ≠ 0 →
      1 ≤ (nth_answer stub_first_candidate 7 stub_memory j).attempts) ∧
    (∀ m, m ≤ 1 → attempts_sum stub_first_candidate 7 stub_memory m < SIZE_MOD) ∧
    (∀ j, (nth_answer (fun g w b => stub_first_candidate_masked g w 0xFF000000 b) 7
        stub_memory j).ok ≠ 0 →
      1 ≤ (nth_answer (fun g w b => stub_first_candidate_masked g w 0xFF000000 b) 7
        stub_memory j).attempts) ∧
    (∀ m, m ≤ 1 → attempts_sum (fun g w b => stub_first_candidate_masked g w 0xFF000000 b) 7
      stub_memory m < SIZE_MOD) ∧
    (∀ r t, grind_for_32bit_value_gpu stub_first_candidate 1 7 stub_memory = some (1, r) →
      r.attempts_out = some t → 1 ≤ t) ∧
    (∀ r t, Xgrind.grind_for_32bit_value_gpu stub_first_candidate_masked 1 7 0xFF000000
        stub_memory = some (1, r) → r.attempts_out = some t → 1 ≤ t) :=
  have h1 : ∀ j, (nth_answer stub_first_candidate 7 stub_memory j).ok ≠ 0 →
      1 ≤ (nth_answer stub_first_candidate 7 stub_memory j).attempts :=
    fun _ _ => Nat.le_refl 1
  have h2 : ∀ m, m ≤ 1 → attempts_sum stub_first_candidate 7 stub_memory m < SIZE_MOD := by
    intro m hm
    interval_cases m <;> decide
  have h3 : ∀ j, (nth_answer (fun g w b => stub_first_candidate_masked g w 0xFF000000 b) 7
        stub_memory j).ok ≠ 0 →
      1 ≤ (nth_answer (fun g w b => stub_first_candidate_masked g w 0xFF000000 b) 7
        stub_memory j).attempts :=
    fun _ _ => Nat.le_refl 1
  have h4 : ∀ m, m ≤ 1 →
      attempts_sum (fun g w b => stub_first_candidate_masked g w 0xFF000000 b) 7
        stub_memory m < SIZE_MOD := by
    intro m hm
    interval_cases m <;> decide
  ⟨h1, h2, h3, h4,
    attempts_total_pos stub_first_candidate stub_first_candidate_masked 7 0xFF000000 1
      stub_memory stub_memory h1 h2 h3 h4⟩

/-! ## The seeding routines -/

/-- C8. Degenerate-seed guard: for every 16-byte seed read successfully, initialisation
succeeds and leaves a generator state different from `(0, 0)`; a seed whose two 64-bit
words are both zero is replaced by one fixed non-zero constant
(`(0x123456789abcdef0, 0x0fedcba987654321)` in keygrinder, `(1, 0)` in xgrind), and every
other seed is stored unchanged. This holds for `rng_init_seed` / `init_rng_global` of
keygrinder and for `init_rng_global` of xgrind. -/
theorem seed_guard (rd : ReadResult) (fd : Int) (g : xorshift128plus_state)
    (hfd : 0 ≤ fd) (hrd : rd.ret = 16) :
    ((rng_init_seed rd).1 = 1 ∧ (rng_init_seed rd).2 ≠ ⟨0, 0⟩ ∧
      (rd.w0 = 0 ∧ rd.w1 = 0 →
        (rng_init_seed rd).2 = ⟨0x123456789abcdef0, 0x0fedcba987654321⟩) ∧
      (¬ (rd.w0 = 0 ∧ rd.w1 = 0) → (rng_init_seed rd).2 = ⟨rd.w0, rd.w1⟩) ∧
      init_rng_global fd rd g = (1, (rng_init_seed rd).2)) ∧
    ((Xgrind.init_rng_global fd rd g).1 = 1 ∧ (Xgrind.init_rng_global fd rd g).2 ≠ ⟨0, 0⟩ ∧
      (rd.w0 = 0 ∧ rd.w1 = 0 → (Xgrind.init_rng_global fd rd g).2 = ⟨1, 0⟩) ∧
      (¬ (rd.w0 = 0 ∧ rd.w1 = 0) →
        (Xgrind.init_rng_global fd rd g).2 = ⟨rd.w0, rd.w1⟩)) := by
  have hfd2 : ¬ (fd < 0) := by omega
  have hrd2 : ¬ (rd.ret ≠ 16) := by
    intro h
    exact h hrd
  by_cases hz : rd.w0 = 0 ∧ rd.w1 = 0
  · have e1 : rng_init_seed rd = (1, ⟨0x123456789abcdef0, 0x0fedcba987654321⟩) := by
      unfold rng_init_seed
      rw [if_neg hrd2, if_pos hz]
    have e2 : Xgrind.init_rng_global fd rd g = (1, ⟨1, 0⟩) := by
      unfold Xgrind.init_rng_global
      rw [if_neg hfd2, if_neg hrd2, if_pos hz, hz.2]
    refine ⟨⟨?_, ?_, ?_, ?_, ?_⟩, ?_, ?_, ?_, ?_⟩
    · rw [e1]
    · rw [e1]
      decide
    · intro _
      rw [e1]
    · intro h
      exact absurd hz h
    · unfold init_rng_global
      rw [if_neg hfd2, e1]
      rfl
    · rw [e2]
    · rw [e2]
      decide
    · intro _
      rw [e2]
    · intro h
      exact absurd hz h
  · have e1 : rng_init_seed rd = (1, ⟨rd.w0, rd.w1⟩) := by
      unfold rng_init_seed
      rw [if_neg hrd2, if_neg hz]
    have e2 : Xgrind.init_rng_global fd rd g = (1, ⟨rd.w0, rd.w1⟩) := by
      unfold Xgrind.init_rng_global
      rw [if_neg hfd2, if_neg hrd2, if_neg hz]
    have hne : (⟨rd.w0, rd.w1⟩ : xorshift128plus_state) ≠ ⟨0, 0⟩ := by
      intro h
      apply hz
      exact ⟨congrArg xorshift128plus_state.s0 h, congrArg xorshift128plus_state.s1 h⟩
    refine ⟨⟨?_, ?_, ?_, ?_, ?_⟩, ?_, ?_, ?_, ?_⟩
    · rw [e1]
    · rw [e1]
      exact hne
    · intro h
      exact absurd h hz
    · intro _
      rw [e1]
    · unfold init_rng_global
      rw [if_neg hfd2, e1]
      rfl
    · rw [e2]
    · rw [e2]
      exact hne
    · intro h
      exact absurd h hz
    · intro _
      rw [e2]

/-- Witness of C8: the all-zero seed. -/
theorem seed_guard_witness :
    (0 : Int) ≤ 3 ∧ (ReadResult.mk 16 0 0).ret = 16 ∧
    (((rng_init_seed ⟨16, 0, 0⟩).1 = 1 ∧ (rng_init_seed ⟨16, 0, 0⟩).2 ≠ ⟨0, 0⟩ ∧
      ((ReadResult.mk 16 0 0).w0 = 0 ∧ (ReadResult.mk 16 0 0).w1 = 0 →
        (rng_init_seed ⟨16, 0, 0⟩).2 = ⟨0x123456789abcdef0, 0x0fedcba987654321⟩) ∧
      (¬ ((ReadResult.mk 16 0 0).w0 = 0 ∧ (ReadResult.mk 16 0 0).w1 = 0) →
        (rng_init_seed ⟨16, 0, 0⟩).2
          = ⟨(ReadResult.mk 16 0 0).w0, (ReadResult.mk 16 0 0).w1⟩) ∧
      init_rng_global 3 ⟨16, 0, 0⟩ ⟨5, 6⟩ = (1, (rng_init_seed ⟨16, 0, 0⟩).2)) ∧
    ((Xgrind.init_rng_global 3 ⟨16, 0, 0⟩ ⟨5, 6⟩).1 = 1 ∧
      (Xgrind.init_rng_global 3 ⟨16, 0, 0⟩ ⟨5, 6⟩).2 ≠ ⟨0, 0⟩ ∧
      ((ReadResult.mk 16 0 0).w0 = 0 ∧ (ReadResult.mk 16 0 0).w1 = 0 →
        (Xgrind.init_rng_global 3 ⟨16, 0, 0⟩ ⟨5, 6⟩).2 = ⟨1, 0⟩) ∧
      (¬ ((ReadResult.mk 16 0 0).w0 = 0 ∧ (ReadResult.mk 16 0 0).w1 = 0) →
        (Xgrind.init_rng_global 3 ⟨16, 0, 0⟩ ⟨5, 6⟩).2
          = ⟨(ReadResult.mk 16 0 0).w0, (ReadResult.mk 16 0 0).w1⟩))) :=
  ⟨by decide, rfl, seed_guard ⟨16, 0, 0⟩ 3 ⟨5, 6⟩ (by decide) rfl⟩

/-! ## Lemmas on hex strings -/

set_option maxRecDepth 100000 in
theorem hex_pair_spec : ∀ b, b < 256 →
    ¬ (hex_val (hex_table.getD (b >>> 4) 0) < 0 ∨
      hex_val (hex_table.getD (b &&& 0x0f) 0) < 0) ∧
    (((hex_val (hex_table.getD (b >>> 4) 0)).toNat <<< 4) |||
      (hex_val (hex_table.getD (b &&& 0x0f) 0)).toNat) % 256 = b ∧
    clean_char (hex_table.getD (b >>> 4) 0) ∧ clean_char (hex_table.getD (b &&& 0x0f) 0) := by
  decide

theorem bytes_to_hex_full (k : List Nat) :
    bytes_to_hex k k.length
      = k.flatMap (fun b => [hex_table.getD (b >>> 4) 0, hex_table.getD (b &&& 0x0f) 0]) := by
  unfold bytes_to_hex
  rw [List.take_length]

theorem bytes_to_hex_length (k : List Nat) : (bytes_to_hex k k.length).length = 2 * k.length := by
  rw [bytes_to_hex_full]
  induction k with
  | nil => rfl
  | cons b k ih =>
    simp only [List.flatMap_cons, List.length_append, List.length_cons, List.length_nil, ih]
    omega

theorem bytes_to_hex_clean (k : List Nat) (hk : ∀ x ∈ k, x < 256) :
    ∀ c ∈ bytes_to_hex k k.length, clean_char c := by
  rw [bytes_to_hex_full]
  intro c hc
  rw [List.mem_flatMap] at hc
  obtain ⟨b, hb, hcb⟩ := hc
  obtain ⟨_, _, h3, h4⟩ := hex_pair_spec b (hk b hb)
  simp only [List.mem_cons, List.mem_singleton, List.not_mem_nil, or_false] at hcb
  rcases hcb with h | h
  · rw [h]
    exact h3
  · rw [h]
    exact h4

theorem hex_to_bytes_loop_round_trip :
    ∀ (k pre : List Nat) (i : Nat), (∀ x ∈ k, x < 256) → pre.length = 2 * i →
      hex_to_bytes_loop (pre ++ bytes_to_hex k k.length) k.length i = some k := by
  intro k
  induction k with
  | nil =>
    intro pre i _ _
    rfl
  | cons b k ih =>
    intro pre i hk hpre
    obtain ⟨h1, h2, _, _⟩ := hex_pair_spec b (hk b (List.mem_cons_self b k))
    have hcons : bytes_to_hex (b :: k) (b :: k).length
        = hex_table.getD (b >>> 4) 0 :: hex_table.getD (b &&& 0x0f) 0
          :: bytes_to_hex k k.length := by
      rw [bytes_to_hex_full, bytes_to_hex_full]
      rfl
    have g1 : (pre ++ bytes_to_hex (b :: k) (b :: k).length).getD (2 * i) 0
        = hex_table.getD (b >>> 4) 0 := by
      rw [hcons, ← hpre, List.getD_eq_getElem?_getD, List.getElem?_append_right (le_refl _)]
      simp
    have g2 : (pre ++ bytes_to_hex (b :: k) (b :: k).length).getD (2 * i + 1) 0
        = hex_table.getD (b &&& 0x0f) 0 := by
      rw [hcons, ← hpre, List.getD_eq_getElem?_getD,
        List.getElem?_append_right (Nat.le_add_right _ _)]
      simp
    have hrec := ih (pre ++ [hex_table.getD (b >>> 4) 0, hex_table.getD (b &&& 0x0f) 0])
      (i + 1) (fun x hx => hk x (List.mem_cons_of_mem b hx))
      (by simp only [List.length_append, List.length_cons, List.length_nil]; omega)
    have happ : pre ++ [hex_table.getD (b >>> 4) 0, hex_table.getD (b &&& 0x0f) 0]
        ++ bytes_to_hex k k.length = pre ++ bytes_to_hex (b :: k) (b :: k).length := by
      rw [hcons]
      simp
    rw [happ] at hrec
    show hex_to_bytes_loop _ (k.length + 1) i = _
    unfold hex_to_bytes_loop
    simp only [g1, g2, h1, if_false, hrec, h2]

theorem hex_to_bytes_round_trip (k : List Nat) (hk : ∀ x ∈ k, x < 256) :
    hex_to_bytes (bytes_to_hex k k.length) k.length = some k := by
  unfold hex_to_bytes
  have hl : ¬ ((bytes_to_hex k k.length).length ≠ k.length * 2) := by
    rw [bytes_to_hex_length]
    omega
  rw [if_neg hl]
  have := hex_to_bytes_loop_round_trip k [] 0 hk rfl
  simpa using this

theorem c_str_of_clean (h : List Nat) (hc : ∀ c ∈ h, c ≠ 0) : c_str h = h := by
  unfold c_str
  rw [List.takeWhile_eq_self_iff]
  intro c hcm
  simpa using hc c hcm

theorem skip_blanks_of_clean (h : List Nat) (hc : ∀ c ∈ h, clean_char c) (t : List Nat) :
    h ≠ [] → skip_blanks (h ++ t) = h ++ t := by
  intro hne
  cases h with
  | nil => exact absurd rfl hne
  | cons c cs =>
    obtain ⟨_, _, h3, h4⟩ := hc c (List.mem_cons_self c cs)
    have hnb : ¬ (c = 32 ∨ c = 9) := by
      rintro (h | h)
      · exact h3 h
      · exact h4 h
    show skip_blanks (c :: (cs ++ t)) = _
    unfold skip_blanks
    rw [if_neg hnb]
    rfl

theorem strip_newline_line (h : List Nat) (hc : ∀ c ∈ h, clean_char c) :
    strip_newline (h ++ [10]) = h := by
  unfold strip_newline
  induction h with
  | nil => simp [List.takeWhile]
  | cons c cs ih =>
    have h2 := (hc c (List.mem_cons_self c cs)).2.1
    have := ih (fun x hx => hc x (List.mem_cons_of_mem c hx))
    simp only [List.cons_append, List.takeWhile_cons, ne_eq, h2, not_false_eq_true,
      decide_True, if_true]
    rw [this]

/-- The line written for a public key is read back as its hex string. -/
theorem key_line_normal (k : List Nat) (hk : ∀ x ∈ k, x < 256) (hne : k ≠ []) :
    strip_newline (skip_blanks (c_str (bytes_to_hex k k.length ++ [10])))
      = bytes_to_hex k k.length := by
  have hclean := bytes_to_hex_clean k hk
  have hnz : ∀ c ∈ bytes_to_hex k k.length ++ [10], c ≠ 0 := by
    intro c hc
    rw [List.mem_append] at hc
    rcases hc with h | h
    · exact (hclean c h).1
    · simp only [List.mem_singleton] at h
      omega
  have hne2 : bytes_to_hex k k.length ≠ [] := by
    intro h
    have := bytes_to_hex_length k
    rw [h] at this
    cases k with
    | nil => exact hne rfl
    | cons b t => simp at this
  rw [c_str_of_clean _ hnz, skip_blanks_of_clean _ hclean [10] hne2, strip_newline_line _ hclean]

theorem testBit_byte_of (c s t : Nat) :
    (c / 2 ^ s % 256).testBit t = (decide (t < 8) && c.testBit (s + t)) := by
  have e : (256 : Nat) = 2 ^ 8 := by norm_num
  rw [e, Nat.testBit_mod_two_pow, ← Nat.shiftRight_eq_div_pow, Nat.testBit_shiftRight]

theorem be32_decode (c b1 b2 b3 b4 : Nat) (hc : c < 2 ^ 32)
    (h1 : b1 = c / 2 ^ 24 % 256) (h2 : b2 = c / 2 ^ 16 % 256)
    (h3 : b3 = c / 2 ^ 8 % 256) (h4 : b4 = c % 256) :
    ((b1 <<< 24) % 2 ^ 32) ||| ((b2 <<< 16) % 2 ^ 32) ||| ((b3 <<< 8) % 2 ^ 32) ||| b4
      = c := by
  have h4b : b4 = c / 2 ^ 0 % 256 := by simpa using h4
  subst h1 h2 h3
  rw [h4b]
  apply Nat.eq_of_testBit_eq
  intro t
  simp only [Nat.testBit_or, Nat.testBit_mod_two_pow, Nat.testBit_shiftLeft, testBit_byte_of]
  by_cases c1 : t < 8
  · have a1 : ¬ (t ≥ 24) := by omega
    have a2 : ¬ (t ≥ 16) := by omega
    have a3 : ¬ (t ≥ 8) := by omega
    simp [c1, a1, a2, a3]
  · by_cases c2 : t < 16
    · have a1 : ¬ (t ≥ 24) := by omega
      have a2 : ¬ (t ≥ 16) := by omega
      have a3 : t ≥ 8 := by omega
      have a4 : t - 8 < 8 := by omega
      have a5 : 8 + (t - 8) = t := by omega
      have a6 : t < 32 := by omega
      simp [c1, a1, a2, a3, a4, a5, a6]
    · by_cases c3 : t < 24
      · have a1 : ¬ (t ≥ 24) := by omega
        have a2 : t ≥ 16 := by omega
        have a4 : t - 16 < 8 := by omega
        have a5 : 16 + (t - 16) = t := by omega
        have a6 : t < 32 := by omega
        have a7 : ¬ (t - 8 < 8) := by omega
        simp [c1, a1, a2, a4, a5, a6, a7]
      · by_cases c4 : t < 32
        · have a1 : t ≥ 24 := by omega
          have a4 : t - 24 < 8 := by omega
          have a5 : 24 + (t - 24) = t := by omega
          have a7 : ¬ (t - 8 < 8) := by omega
          have a8 : ¬ (t - 16 < 8) := by omega
          simp [c1, a1, a4, a5, c4, a7, a8]
        · have hp : 2 ^ 32 ≤ 2 ^ t := Nat.pow_le_pow_right (by norm_num) (by omega)
          rw [Nat.testBit_lt_two_pow (lt_of_lt_of_le hc hp)]
          simp [c1, c4]

/-! ## The decode front end -/

theorem decode_loop_keys (tb nc : Nat) :
    ∀ (keys : List (List Nat)) (i : Nat) (out : List Nat),
      (∀ k ∈ keys, k.length = 33 ∧ ∀ x ∈ k, x < 256) → i + keys.length ≤ nc →
      decode_loop tb nc (keys.map (fun k => bytes_to_hex k 33 ++ [10])) i out
        = (put_chunks tb (keys.map extract_32bit_from_serialized) i out).map
            (fun o => (0, i + keys.length, o)) := by
  intro keys
  induction keys with
  | nil =>
    intro i out _ _
    rfl
  | cons k ks ih =>
    intro i out hk hi
    simp only [List.length_cons] at hi
    obtain ⟨hk33, hkb⟩ := hk k (List.mem_cons_self k ks)
    have hne : k ≠ [] := by
      intro h
      rw [h] at hk33
      simp at hk33
    have hline : strip_newline (skip_blanks (c_str (bytes_to_hex k 33 ++ [10])))
        = bytes_to_hex k 33 := by
      have := key_line_normal k hkb hne
      rw [hk33] at this
      exact this
    have hnonempty : bytes_to_hex k 33 ≠ [] := by
      intro h
      have := bytes_to_hex_length k
      rw [hk33, h] at this
      simp at this
    have hhex : hex_to_bytes (bytes_to_hex k 33) 33 = some k := by
      have := hex_to_bytes_round_trip k hkb
      rw [hk33] at this
      exact this
    have hlt : ¬ ¬ (i < nc) := by omega
    simp only [List.map_cons]
    unfold decode_loop put_chunks
    simp only [hlt, if_false, hline, hnonempty, hhex]
    cases hput : put_32_bits out tb i (extract_32bit_from_serialized k) with
    | none => rfl
    | some out1 =>
      simp only []
      rw [ih (i + 1) out1 (fun x hx => hk x (List.mem_cons_of_mem k hx)) (by omega)]
      have e : i + 1 + ks.length = i + (ks.length + 1) := by omega
      rw [e]
      rfl

/-- C9. End-to-end decode: for every buffer `b` of `L` bytes and every sequence of
`ceil(8L/32)` 33-byte public keys in which bytes 1..4 of key `i` are the big-endian
encoding of `get_32_bits(b, L, i)` (all other bytes arbitrary), writing each key as a
line with `bytes_to_hex` and running `decode_file` on those lines with persisted length
`L` (one for which the `size_t` chunk count `(8L + 31) / 32` does not wrap) ends with
exit status 0 and writes exactly `b`, of exactly `L` bytes. -/
theorem decode_end_to_end (b : List Nat) (keys : List (List Nat))
    (hb : ∀ x ∈ b, x < 256) (hlen : 8 * b.length + 31 < 2 ^ 64)
    (hn : keys.length = chunk_count (8 * b.length))
    (hkeys : ∀ k ∈ keys, k.length = 33 ∧ ∀ x ∈ k, x < 256)
    (hchunk : ∀ i, i < keys.length → ∃ c, get_32_bits b b.length i = some c ∧
      (keys.getD i []).getD 1 0 = c / 2 ^ 24 % 256 ∧
      (keys.getD i []).getD 2 0 = c / 2 ^ 16 % 256 ∧
      (keys.getD i []).getD 3 0 = c / 2 ^ 8 % 256 ∧
      (keys.getD i []).getD 4 0 = c % 256) :
    decode_file b.length (keys.map (fun k => bytes_to_hex k 33 ++ [10])) = some (0, b) := by
  obtain ⟨cs, _, h2, h3, h4, _⟩ := round_trip_core b hb (by omega)
  have hcs : keys.map extract_32bit_from_serialized = cs := by
    apply List.ext_getElem
    · rw [List.length_map, hn, h2]
    · intro i hi1 hi2
      rw [List.length_map] at hi1
      obtain ⟨c, hc, b1, b2, b3, b4⟩ := hchunk i hi1
      obtain ⟨g1, g2⟩ := h3 i (by rw [← hn]; exact hi1)
      have hcc : c = cs.getD i 0 := Option.some.inj (hc.symm.trans g1)
      rw [List.getD_eq_getElem _ _ hi2] at hcc
      rw [List.getElem_map, ← hcc]
      rw [List.getD_eq_getElem _ _ hi1] at b1 b2 b3 b4
      unfold extract_32bit_from_serialized U32_MOD
      exact be32_decode c _ _ _ _ (by rw [hcc, ← List.getD_eq_getElem _ 0 hi2]; exact g2)
        b1 b2 b3 b4
  have htb : (b.length * 8) % SIZE_MOD = 8 * b.length := by
    unfold SIZE_MOD
    omega
  have hnc : ((8 * b.length + 31) % SIZE_MOD) / 32 = chunk_count (8 * b.length) := by
    have hm : (8 * b.length + 31) % SIZE_MOD = 8 * b.length + 31 := by
      apply Nat.mod_eq_of_lt
      unfold SIZE_MOD
      omega
    rw [hm]
    rfl
  unfold decode_file
  simp only [htb, hnc]
  rw [decode_loop_keys (8 * b.length) (chunk_count (8 * b.length)) keys 0 _ hkeys
    (by omega), hcs, h4]
  simp only [Option.map_some', ne_eq, not_true_eq_false, if_false]
  cases hL : b.length with
  | zero =>
    have : b = [] := List.length_eq_zero.mp hL
    simp [this]
  | succ n =>
    have : b.take (n + 1) = b := by
      rw [← hL, List.take_length]
    simp [this]

/-- Witness of C9: the four bytes `de ad be ef` and one public key embedding them. -/
theorem decode_end_to_end_witness :
    (∀ x ∈ [0xDE, 0xAD, 0xBE, 0xEF], x < 256) ∧
    8 * [0xDE, 0xAD, 0xBE, 0xEF].length + 31 < 2 ^ 64 ∧
    [0x02 :: 0xDE :: 0xAD :: 0xBE :: 0xEF :: List.replicate 28 0x11].length
      = chunk_count (8 * [0xDE, 0xAD, 0xBE, 0xEF].length) ∧
    (∀ k ∈ [0x02 :: 0xDE :: 0xAD :: 0xBE :: 0xEF :: List.replicate 28 0x11],
      k.length = 33 ∧ ∀ x ∈ k, x < 256) ∧
    (∀ i, i < [0x02 :: 0xDE :: 0xAD :: 0xBE :: 0xEF :: List.replicate 28 0x11].length →
      ∃ c, get_32_bits [0xDE, 0xAD, 0xBE, 0xEF] [0xDE, 0xAD, 0xBE, 0xEF].length i = some c ∧
        (([0x02 :: 0xDE :: 0xAD :: 0xBE :: 0xEF :: List.replicate 28 0x11] :
          List (List Nat)).getD i []).getD 1 0 = c / 2 ^ 24 % 256 ∧
        (([0x02 :: 0xDE :: 0xAD :: 0xBE :: 0xEF :: List.replicate 28 0x11] :
          List (List Nat)).getD i []).getD 2 0 = c / 2 ^ 16 % 256 ∧
        (([0x02 :: 0xDE :: 0xAD :: 0xBE :: 0xEF :: List.replicate 28 0x11] :
          List (List Nat)).getD i []).getD 3 0 = c / 2 ^ 8 % 256 ∧
        (([0x02 :: 0xDE :: 0xAD :: 0xBE :: 0xEF :: List.replicate 28 0x11] :
          List (List Nat)).getD i []).getD 4 0 = c % 256) ∧
    decode_file [0xDE, 0xAD, 0xBE, 0xEF].length
      ([0x02 :: 0xDE :: 0xAD :: 0xBE :: 0xEF :: List.replicate 28 0x11].map
        (fun k => bytes_to_hex k 33 ++ [10])) = some (0, [0xDE, 0xAD, 0xBE, 0xEF]) :=
  have hch : ∀ i, i < [0x02 :: 0xDE :: 0xAD :: 0xBE :: 0xEF :: List.replicate 28 0x11].length →
      ∃ c, get_32_bits [0xDE, 0xAD, 0xBE, 0xEF] [0xDE, 0xAD, 0xBE, 0xEF].length i = some c ∧
        (([0x02 :: 0xDE :: 0xAD :: 0xBE :: 0xEF :: List.replicate 28 0x11] :
          List (List Nat)).getD i []).getD 1 0 = c / 2 ^ 24 % 256 ∧
        (([0x02 :: 0xDE :: 0xAD :: 0xBE :: 0xEF :: List.replicate 28 0x11] :
          List (List Nat)).getD i []).getD 2 0 = c / 2 ^ 16 % 256 ∧
        (([0x02 :: 0xDE :: 0xAD :: 0xBE :: 0xEF :: List.replicate 28 0x11] :
          List (List Nat)).getD i []).getD 3 0 = c / 2 ^ 8 % 256 ∧
        (([0x02 :: 0xDE :: 0xAD :: 0xBE :: 0xEF :: List.replicate 28 0x11] :
          List (List Nat)).getD i []).getD 4 0 = c % 256 := by
    intro i hi
    have hi0 : i = 0 := by
      simp only [List.length_cons, List.length_nil] at hi
      omega
    subst hi0
    exact ⟨0xDEADBEEF, by decide, by decide, by decide, by decide, by decide⟩
  ⟨by decide, by decide, by decide, by decide, hch,
    decode_end_to_end [0xDE, 0xAD, 0xBE, 0xEF]
      [0x02 :: 0xDE :: 0xAD :: 0xBE :: 0xEF :: List.replicate 28 0x11]
      (by decide) (by decide) (by decide) (by decide) hch⟩

/-! ## The stream front end -/

/-- Lines of the wrong length are skipped: a line that is not empty, not `quit` / `exit`,
and whose target text (leading blanks skipped, newline and an optional `0x` / `0X`
stripped) is not 8 characters long only adds a diagnostic to `stderr`; no grind is
performed, nothing is written to `stdout`, and the loop goes on with the next line. -/
theorem stream_skips_wrong_length {σ : Type}
    (gpu : σ → Nat → List (List Nat) → GpuAnswer × σ) (fuel : Nat)
    (line : List Nat) (rest : List (List Nat)) (st : StreamState σ)
    (hne : line_text line ≠ [])
    (hquit : line_text line ≠ c_lit "quit") (hexit : line_text line ≠ c_lit "exit")
    (hlen : (target_text (line_text line)).length ≠ 8) :
    grind_stream_loop gpu fuel (line :: rest) st
      = grind_stream_loop gpu fuel rest
          ⟨st.mem, st.stdout,
            st.stderr ++ [c_lit "Expected 8 hex chars, got: " ++ target_text (line_text line)
              ++ [10]],
            st.grinds⟩ := by
  have hs : ¬ (line_text line = c_lit "quit" ∨ line_text line = c_lit "exit") := by
    rintro (h | h)
    · exact hquit h
    · exact hexit h
  unfold target_text line_text at *
  rw [grind_stream_loop]
  simp only [hne, hs, hlen, if_false, if_true, ne_eq, not_false_eq_true]

/-- C10 (the code at the failing input). The stream loop of keygrinder grinds for a line
of 8 characters that are not hex digits: on the single input line `zzzzzzzz` the target
text passes the length check, `strtoul` turns it into 0, the collaborator is asked to
search target 0, and one result line is written to `stdout` (none to `stderr`). -/
theorem stream_grinds_non_hex_line :
    strtoul16 (c_lit "zzzzzzzz") % U32_MOD = 0 ∧
    (grind_stream_loop stub_recording 1 [c_lit "zzzzzzzz\n"]
        ⟨stub_recording_memory, [], [], 0⟩).map
      (fun s => (s.stdout.length, s.stderr, s.grinds, s.mem.calls, s.mem.gpu))
      = some (1, [], 1, 1, [0]) := by
  constructor
  · decide
  · with_unfolding_all decide

/-! ## The chunk count -/

theorem num_chunks_in_range (L : Nat) (h : 8 * L + 31 < 2 ^ 64) :
    encode_num_chunks L = (8 * L + 31) / 32 := by
  unfold encode_num_chunks SIZE_MOD
  have h1 : (L * 8) % 2 ^ 64 = 8 * L := by omega
  simp only [h1]
  rw [Nat.mod_eq_of_lt h]

/-- C13 (counterexample). The `size_t` chunk count is not `ceil(8L/32)` for every length:
for `L = 2^61 - 1` the sum `8L + 31` wraps, `encode_file` and `decode_file` compute
`num_chunks = 0`, while `ceil(8L/32) = ceil(L/4) = 2^59`. -/
theorem num_chunks_wraps :
    encode_num_chunks (2 ^ 61 - 1) = 0 ∧ decode_num_chunks (2 ^ 61 - 1) = 0 ∧
    chunk_count (8 * (2 ^ 61 - 1)) = 2 ^ 59 ∧ (2 ^ 61 - 1 + 3) / 4 = 2 ^ 59 := by
  decide

/-- C13 (amended). Chunk count: for every buffer length `L` in bytes with
`8L + 31 < 2^64` (that is `L <= 2^61 - 4`), the number of chunks computed by encode and
by decode, `(8L + 31) / 32` in `size_t` arithmetic, equals `ceil(8L/32)` (the least
`c` with `8L <= 32 c`), i.e. `ceil(L/4)` (0 for the empty buffer); and encode and decode
compute the same count from the same length, for every length (in range or not). -/
theorem num_chunks_eq_ceil (L : Nat) (h : 8 * L + 31 < 2 ^ 64) :
    encode_num_chunks L = chunk_count (8 * L) ∧
    decode_num_chunks L = chunk_count (8 * L) ∧
    chunk_count (8 * L) = (L + 3) / 4 ∧
    8 * L ≤ 32 * chunk_count (8 * L) ∧
    (∀ c, 8 * L ≤ 32 * c → chunk_count (8 * L) ≤ c) ∧
    (∀ M, encode_num_chunks M = decode_num_chunks M) ∧
    (L = 0 → encode_num_chunks L = 0) := by
  have e := num_chunks_in_range L h
  have d : decode_num_chunks L = encode_num_chunks L := rfl
  have c : chunk_count (8 * L) = (8 * L + 31) / 32 := rfl
  refine ⟨by rw [e, c], by rw [d, e, c], by rw [c]; omega, by rw [c]; omega, ?_,
    fun _ => rfl, ?_⟩
  · intro k hk
    rw [c]
    omega
  · intro h0
    rw [e, h0]

/-- Witness of the amended C13: a five-byte buffer has two chunks. -/
theorem num_chunks_eq_ceil_witness :
    8 * 5 + 31 < 2 ^ 64 ∧
    (encode_num_chunks 5 = chunk_count (8 * 5) ∧
    decode_num_chunks 5 = chunk_count (8 * 5) ∧
    chunk_count (8 * 5) = (5 + 3) / 4 ∧
    8 * 5 ≤ 32 * chunk_count (8 * 5) ∧
    (∀ c, 8 * 5 ≤ 32 * c → chunk_count (8 * 5) ≤ c) ∧
    (∀ M, encode_num_chunks M = decode_num_chunks M) ∧
    (5 = 0 → encode_num_chunks 5 = 0)) :=
  ⟨by decide, num_chunks_eq_ceil 5 (by decide)⟩

/-! ## The top-N-bit mask -/

theorem grind_stream_mask_testBit (N t : Nat) (h1 : 1 ≤ N) (h32 : N ≤ 32) :
    (Xgrind.grind_stream_mask (N : Int)).testBit t = (decide (32 - N ≤ t) && decide (t < 32)) := by
  unfold Xgrind.grind_stream_mask
  by_cases hN : N = 32
  · subst hN
    have hc : ¬ (((32 : Nat) : Int) < 32 ∧ ((32 : Nat) : Int) > 0) := by omega
    rw [if_neg hc]
    have e : (0xFFFFFFFF : Nat) = 2 ^ 32 - 1 := by norm_num
    rw [e, Nat.testBit_two_pow_sub_one]
    simp
  · have hc : ((N : Int) < 32 ∧ (N : Int) > 0) := by omega
    rw [if_pos hc]
    have hk : (32 - (N : Int)).toNat = 32 - N := by omega
    have e : (0xFFFFFFFF : Nat) = 2 ^ 32 - 1 := by norm_num
    have e64 : SIZE_MOD = 2 ^ 64 := rfl
    have e32 : U32_MOD = 2 ^ 32 := rfl
    rw [hk, e, e64, e32, Nat.testBit_mod_two_pow, Nat.testBit_and, Nat.testBit_mod_two_pow,
      Nat.testBit_shiftLeft, Nat.testBit_two_pow_sub_one, Nat.testBit_two_pow_sub_one]
    by_cases a : 32 - N ≤ t <;> by_cases b : t < 32
    · have b2 : t < 64 := by omega
      have b3 : t - (32 - N) < 32 := by omega
      simp [a, b, b2, b3]
    · simp [a, b]
    · simp [a, b]
    · simp [a, b]

theorem grind_stream_mask_value :
    ∀ N : Nat, N ≤ 32 → 1 ≤ N →
      Xgrind.grind_stream_mask (N : Int) = 2 ^ 32 - 2 ^ (32 - N) := by
  decide

theorem grind_stream_mask_outside (b : Int) (h : ¬ (0 < b ∧ b < 32)) :
    Xgrind.grind_stream_mask b = 0xFFFFFFFF := by
  unfold Xgrind.grind_stream_mask
  have hc : ¬ (b < 32 ∧ b > 0) := by
    rintro ⟨h1, h2⟩
    exact h ⟨h2, h1⟩
  rw [if_neg hc]

theorem masked_eq_iff_top_bits (N x y : Nat) (h1 : 1 ≤ N) (h32 : N ≤ 32) :
    (x &&& Xgrind.grind_stream_mask (N : Int) = y &&& Xgrind.grind_stream_mask (N : Int))
      ↔ ∀ j, j < N → x.testBit (31 - j) = y.testBit (31 - j) := by
  constructor
  · intro h j hj
    have hb := congrArg (fun z => z.testBit (31 - j)) h
    simp only [Nat.testBit_and, grind_stream_mask_testBit N (31 - j) h1 h32] at hb
    have a1 : 32 - N ≤ 31 - j := by omega
    have a2 : 31 - j < 32 := by omega
    simpa [a1, a2] using hb
  · intro h
    apply Nat.eq_of_testBit_eq
    intro t
    rw [Nat.testBit_and, Nat.testBit_and, grind_stream_mask_testBit N t h1 h32]
    by_cases a : 32 - N ≤ t <;> by_cases b : t < 32
    · have := h (31 - t) (by omega)
      have e : 31 - (31 - t) = t := by omega
      rw [e] at this
      simp [a, b, this]
    · simp [a, b]
    · simp [a, b]
    · simp [a, b]

theorem top_bits_iff_shift (N x y : Nat) (h1 : 1 ≤ N) (h32 : N ≤ 32) (hx : x < 2 ^ 32)
    (hy : y < 2 ^ 32) :
    (∀ j, j < N → x.testBit (31 - j) = y.testBit (31 - j))
      ↔ x >>> (32 - N) = y >>> (32 - N) := by
  constructor
  · intro h
    apply Nat.eq_of_testBit_eq
    intro t
    rw [Nat.testBit_shiftRight, Nat.testBit_shiftRight]
    by_cases b : 32 - N + t < 32
    · have := h (31 - (32 - N + t)) (by omega)
      have e : 31 - (31 - (32 - N + t)) = 32 - N + t := by omega
      rw [e] at this
      exact this
    · have hp : 2 ^ 32 ≤ 2 ^ (32 - N + t) := Nat.pow_le_pow_right (by norm_num) (by omega)
      rw [Nat.testBit_lt_two_pow (lt_of_lt_of_le hx hp),
        Nat.testBit_lt_two_pow (lt_of_lt_of_le hy hp)]
  · intro h j hj
    have hb := congrArg (fun z => z.testBit (31 - j - (32 - N))) h
    simp only [Nat.testBit_shiftRight] at hb
    have e : 32 - N + (31 - j - (32 - N)) = 31 - j := by omega
    rw [e] at hb
    exact hb

/-- C12. Top-N-bit mask: for every bit-width `N` in `[1, 32]` given as the argument, the
mask that `grind_stream_mode` of xgrind computes and passes to the collaborator is
`2^32 - 2^(32-N)` (all-ones for `N = 32`): exactly the bits `32 - N .. 31` are set.
Hence `(x & mask) == (target & mask)` holds iff `x` and `target` agree on bits
`31, 30, .., 32 - N` (for 32-bit values: iff `x >> (32-N) == target >> (32-N)`),
whatever their lower bits are. A bit-width argument outside `[1, 32]`, or none at all,
selects the all-ones mask. -/
theorem top_n_bit_mask (N argc : Nat) (a : Int) (h1 : 1 ≤ N) (h32 : N ≤ 32)
    (hargc : 3 ≤ argc) (ha : a < 1 ∨ 32 < a) :
    Xgrind.main_bits argc (N : Int) = (N : Int) ∧
    Xgrind.grind_stream_mask (Xgrind.main_bits argc (N : Int)) = 2 ^ 32 - 2 ^ (32 - N) ∧
    (N = 32 → Xgrind.grind_stream_mask (Xgrind.main_bits argc (N : Int)) = 0xFFFFFFFF) ∧
    (∀ t, (Xgrind.grind_stream_mask (Xgrind.main_bits argc (N : Int))).testBit t
      = (decide (32 - N ≤ t) && decide (t < 32))) ∧
    (∀ x target,
      (x &&& Xgrind.grind_stream_mask (Xgrind.main_bits argc (N : Int))
          = target &&& Xgrind.grind_stream_mask (Xgrind.main_bits argc (N : Int)))
        ↔ ∀ j, j < N → x.testBit (31 - j) = target.testBit (31 - j)) ∧
    (∀ x target, x < 2 ^ 32 → target < 2 ^ 32 →
      ((x &&& Xgrind.grind_stream_mask (Xgrind.main_bits argc (N : Int))
          = target &&& Xgrind.grind_stream_mask (Xgrind.main_bits argc (N : Int)))
        ↔ x >>> (32 - N) = target >>> (32 - N))) ∧
    Xgrind.grind_stream_mask (Xgrind.main_bits argc a) = 0xFFFFFFFF ∧
    (∀ argc0 a0, argc0 < 3 →
      Xgrind.grind_stream_mask (Xgrind.main_bits argc0 a0) = 0xFFFFFFFF) := by
  have hmain : Xgrind.main_bits argc (N : Int) = (N : Int) := by
    unfold Xgrind.main_bits
    have c1 : argc ≥ 3 := hargc
    have c2 : ¬ ((N : Int) < 1 ∨ (N : Int) > 32) := by omega
    simp only [c1, if_true, c2, if_false]
  have hout : Xgrind.main_bits argc a = 32 := by
    unfold Xgrind.main_bits
    have c1 : argc ≥ 3 := hargc
    have c2 : a < 1 ∨ a > 32 := by omega
    simp only [c1, if_true, c2]
  rw [hmain]
  refine ⟨rfl, grind_stream_mask_value N h32 h1, ?_, ?_, ?_, ?_, ?_, ?_⟩
  · intro hN
    subst hN
    exact grind_stream_mask_outside _ (by omega)
  · intro t
    exact grind_stream_mask_testBit N t h1 h32
  · intro x target
    exact masked_eq_iff_top_bits N x target h1 h32
  · intro x target hx ht
    rw [masked_eq_iff_top_bits N x target h1 h32]
    exact top_bits_iff_shift N x target h1 h32 hx ht
  · rw [hout]
    exact grind_stream_mask_outside _ (by omega)
  · intro argc0 a0 h0
    have : Xgrind.main_bits argc0 a0 = 32 := by
      unfold Xgrind.main_bits
      have c1 : ¬ (argc0 ≥ 3) := by omega
      have c2 : ¬ ((32 : Int) < 1 ∨ (32 : Int) > 32) := by omega
      simp only [c1, if_false, c2]
    rw [this]
    exact grind_stream_mask_outside _ (by omega)

/-- Witness of C12: `grind_stream 8` and `grind_stream 40`. -/
theorem top_n_bit_mask_witness :
    1 ≤ 8 ∧ 8 ≤ 32 ∧ 3 ≤ 3 ∧ ((40 : Int) < 1 ∨ 32 < (40 : Int)) ∧
    (Xgrind.main_bits 3 ((8 : Nat) : Int) = ((8 : Nat) : Int) ∧
    Xgrind.grind_stream_mask (Xgrind.main_bits 3 ((8 : Nat) : Int)) = 2 ^ 32 - 2 ^ (32 - 8) ∧
    (8 = 32 → Xgrind.grind_stream_mask (Xgrind.main_bits 3 ((8 : Nat) : Int)) = 0xFFFFFFFF) ∧
    (∀ t, (Xgrind.grind_stream_mask (Xgrind.main_bits 3 ((8 : Nat) : Int))).testBit t
      = (decide (32 - 8 ≤ t) && decide (t < 32))) ∧
    (∀ x target,
      (x &&& Xgrind.grind_stream_mask (Xgrind.main_bits 3 ((8 : Nat) : Int))
          = target &&& Xgrind.grind_stream_mask (Xgrind.main_bits 3 ((8 : Nat) : Int)))
        ↔ ∀ j, j < 8 → x.testBit (31 - j) = target.testBit (31 - j)) ∧
    (∀ x target, x < 2 ^ 32 → target < 2 ^ 32 →
      ((x &&& Xgrind.grind_stream_mask (Xgrind.main_bits 3 ((8 : Nat) : Int))
          = target &&& Xgrind.grind_stream_mask (Xgrind.main_bits 3 ((8 : Nat) : Int)))
        ↔ x >>> (32 - 8) = target >>> (32 - 8))) ∧
    Xgrind.grind_stream_mask (Xgrind.main_bits 3 40) = 0xFFFFFFFF ∧
    (∀ argc0 a0, argc0 < 3 →
      Xgrind.grind_stream_mask (Xgrind.main_bits argc0 a0) = 0xFFFFFFFF)) :=
  ⟨by decide, by decide, by decide, by decide,
    top_n_bit_mask 8 3 40 (by decide) (by decide) (by decide) (by decide)⟩

/-! ## The generator step is injective -/

theorem bool_xor_cancel (p q r : Bool) (h : (p ^^ r) = (q ^^ r)) : p = q := by
  cases p <;> cases q <;> cases r <;> simp at h <;> rfl

theorem xor_shr_inj (s a b : Nat) (hs : 1 ≤ s) (h : a ^^^ (a >>> s) = b ^^^ (b >>> s)) :
    a = b := by
  have key : ∀ m t, a + b ≤ t + m → a.testBit t = b.testBit t := by
    intro m
    induction m with
    | zero =>
      intro t ht
      have ha : a < 2 ^ t :=
        lt_of_lt_of_le (Nat.lt_two_pow a) (Nat.pow_le_pow_right (by norm_num) (by omega))
      have hb : b < 2 ^ t :=
        lt_of_lt_of_le (Nat.lt_two_pow b) (Nat.pow_le_pow_right (by norm_num) (by omega))
      rw [Nat.testBit_lt_two_pow ha, Nat.testBit_lt_two_pow hb]
    | succ m ih =>
      intro t ht
      have hup := ih (s + t) (by omega)
      have hb := congrArg (fun z => z.testBit t) h
      simp only [Nat.testBit_xor, Nat.testBit_shiftRight] at hb
      rw [hup] at hb
      exact bool_xor_cancel _ _ _ hb
  apply Nat.eq_of_testBit_eq
  intro t
  exact key (a + b) t (by omega)

theorem xor_shl_inj (s a b : Nat) (hs : 1 ≤ s)
    (h : a ^^^ ((a <<< s) % SIZE_MOD) = b ^^^ ((b <<< s) % SIZE_MOD)) : a = b := by
  have key : ∀ n t, t < n → a.testBit t = b.testBit t := by
    intro n
    induction n with
    | zero =>
      intro t ht
      omega
    | succ n ih =>
      intro t ht
      have hb := congrArg (fun z => z.testBit t) h
      have e64 : SIZE_MOD = 2 ^ 64 := rfl
      simp only [Nat.testBit_xor, e64, Nat.testBit_mod_two_pow, Nat.testBit_shiftLeft] at hb
      by_cases c : t ≥ s
      · have hlow := ih (t - s) (by omega)
        rw [hlow] at hb
        exact bool_xor_cancel _ _ _ hb
      · simpa [c] using hb
  apply Nat.eq_of_testBit_eq
  intro t
  exact key (t + 1) t (by omega)

theorem xorshift_state_injective (a b : xorshift128plus_state)
    (h : (xorshift128plus_next a).2 = (xorshift128plus_next b).2) : a = b := by
  unfold xorshift128plus_next at h
  simp only [xorshift128plus_state.mk.injEq] at h
  obtain ⟨hy, hx⟩ := h
  rw [hy] at hx
  have h2 := Nat.xor_left_inj.mp hx
  have h1 := xor_shr_inj 17 _ _ (by norm_num) h2
  have h0 := xor_shl_inj 23 _ _ (by norm_num) h1
  cases a
  cases b
  simp only [xorshift128plus_state.mk.injEq]
  exact ⟨h0, hy⟩

theorem xorshift_zero_fixed :
    xorshift128plus_next ⟨0, 0⟩ = (0, ⟨0, 0⟩) := by
  decide

theorem xorshift_next_ne_zero (st : xorshift128plus_state) (h : st ≠ ⟨0, 0⟩) :
    (xorshift128plus_next st).2 ≠ ⟨0, 0⟩ := by
  intro hz
  apply h
  apply xorshift_state_injective
  rw [hz, xorshift_zero_fixed]

theorem rng_after_ne_zero :
    ∀ (n : Nat) (st : xorshift128plus_state), st ≠ ⟨0, 0⟩ → rng_after n st ≠ ⟨0, 0⟩ := by
  intro n
  induction n with
  | zero =>
    intro st h
    exact h
  | succ n ih =>
    intro st h
    exact ih _ (xorshift_next_ne_zero st h)

theorem xorshift_state_bounded (st : xorshift128plus_state) (h0 : st.s0 < 2 ^ 64)
    (h1 : st.s1 < 2 ^ 64) :
    (xorshift128plus_next st).2.s0 < 2 ^ 64 ∧ (xorshift128plus_next st).2.s1 < 2 ^ 64 := by
  unfold xorshift128plus_next
  refine ⟨h1, ?_⟩
  have hm : (st.s0 <<< 23) % SIZE_MOD < 2 ^ 64 := Nat.mod_lt _ (by unfold SIZE_MOD; norm_num)
  have a1 := Nat.xor_lt_two_pow h0 hm
  have a2 : (st.s0 ^^^ (st.s0 <<< 23) % SIZE_MOD) >>> 17 < 2 ^ 64 := by
    rw [Nat.shiftRight_eq_div_pow]
    exact lt_of_le_of_lt (Nat.div_le_self _ _) a1
  have a3 : st.s1 >>> 26 < 2 ^ 64 := by
    rw [Nat.shiftRight_eq_div_pow]
    exact lt_of_le_of_lt (Nat.div_le_self _ _) h1
  exact Nat.xor_lt_two_pow (Nat.xor_lt_two_pow a1 a2) (Nat.xor_lt_two_pow h1 a3)

/-! ## No candidate is all zero -/

theorem xorshift128plus_next_eq (st : xorshift128plus_state) :
    xorshift128plus_next st
      = (((xs_mix st.s0 ^^^ (st.s1 ^^^ (st.s1 >>> 26))) + st.s1) % SIZE_MOD,
          ⟨st.s1, xs_mix st.s0 ^^^ (st.s1 ^^^ (st.s1 >>> 26))⟩) := rfl

theorem xor_shl_linear (x y : Nat) :
    (x ^^^ y) ^^^ (((x ^^^ y) <<< 23) % SIZE_MOD)
      = (x ^^^ ((x <<< 23) % SIZE_MOD)) ^^^ (y ^^^ ((y <<< 23) % SIZE_MOD)) := by
  apply Nat.eq_of_testBit_eq
  intro t
  have e64 : SIZE_MOD = 2 ^ 64 := rfl
  simp only [Nat.testBit_xor, e64, Nat.testBit_mod_two_pow, Nat.testBit_shiftLeft]
  generalize x.testBit t = p
  generalize y.testBit t = q
  generalize x.testBit (t - 23) = p1
  generalize y.testBit (t - 23) = q1
  generalize decide (t < 64) = c1
  generalize decide (t ≥ 23) = c2
  cases p <;> cases q <;> cases p1 <;> cases q1 <;> cases c1 <;> cases c2 <;> rfl

theorem xor_shr_linear (s x y : Nat) :
    (x ^^^ y) ^^^ ((x ^^^ y) >>> s) = (x ^^^ (x >>> s)) ^^^ (y ^^^ (y >>> s)) := by
  apply Nat.eq_of_testBit_eq
  intro t
  simp only [Nat.testBit_xor, Nat.testBit_shiftRight]
  generalize x.testBit t = p
  generalize y.testBit t = q
  generalize x.testBit (s + t) = p1
  generalize y.testBit (s + t) = q1
  cases p <;> cases q <;> cases p1 <;> cases q1 <;> rfl

theorem xs_mix_xor (x y : Nat) : xs_mix (x ^^^ y) = xs_mix x ^^^ xs_mix y := by
  unfold xs_mix
  simp only []
  rw [xor_shl_linear, xor_shr_linear]

theorem mix_of_cycle (b nb : Nat)
    (e1 : xs_mix nb ^^^ (b ^^^ (b >>> 26)) = nb)
    (e2 : xs_mix b ^^^ (nb ^^^ (nb >>> 26)) = b) :
    xs_mix (b ^^^ nb) = (b ^^^ nb) >>> 26 := by
  have h1 : xs_mix nb = nb ^^^ (b ^^^ (b >>> 26)) := by
    have := Nat.xor_cancel_right (b ^^^ (b >>> 26)) (xs_mix nb)
    rw [e1] at this
    exact this.symm
  have h2 : xs_mix b = b ^^^ (nb ^^^ (nb >>> 26)) := by
    have := Nat.xor_cancel_right (nb ^^^ (nb >>> 26)) (xs_mix b)
    rw [e2] at this
    exact this.symm
  rw [xs_mix_xor, h1, h2]
  apply Nat.eq_of_testBit_eq
  intro t
  simp only [Nat.testBit_xor, Nat.testBit_shiftRight]
  generalize b.testBit t = p
  generalize nb.testBit t = q
  generalize b.testBit (26 + t) = p1
  generalize nb.testBit (26 + t) = q1
  cases p <;> cases q <;> cases p1 <;> cases q1 <;> rfl

theorem two_mul_xor (x y : Nat) : (2 * x) ^^^ (2 * y) = 2 * (x ^^^ y) := by
  have h := Nat.xor_bit false x false y
  simpa [Nat.bit_val] using h

theorem two_mul_succ_xor (x y : Nat) : (2 * x + 1) ^^^ (2 * y + 1) = 2 * (x ^^^ y) := by
  have h := Nat.xor_bit true x true y
  simpa [Nat.bit_val] using h

theorem xor_complement (w c : Nat) (hc : c < 2 ^ w) : c ^^^ (2 ^ w - (c + 1)) = 2 ^ w - 1 := by
  apply Nat.eq_of_testBit_eq
  intro t
  rw [Nat.testBit_xor, Nat.testBit_two_pow_sub_succ hc, Nat.testBit_two_pow_sub_one]
  by_cases ht : t < w
  · cases hb : c.testBit t <;> simp [ht]
  · have hp : 2 ^ w ≤ 2 ^ t := Nat.pow_le_pow_right (by norm_num) (by omega)
    rw [Nat.testBit_lt_two_pow (lt_of_lt_of_le hc hp)]
    simp [ht]

/-- For `0 < b < 2^w`, `b` xor its `w`-bit negation is all ones above the lowest set bit
of `b` and zero from there down. -/
theorem xor_neg_form :
    ∀ (w b : Nat), 0 < b → b < 2 ^ w →
      ∃ q, 1 ≤ q ∧ q ≤ w ∧ b ^^^ (2 ^ w - b) = 2 ^ w - 2 ^ q := by
  intro w
  induction w with
  | zero =>
    intro b h0 h1
    simp at h1
    omega
  | succ w ih =>
    intro b h0 h1
    have hpow : 2 ^ (w + 1) = 2 * 2 ^ w := by rw [Nat.pow_succ]; omega
    rcases Nat.even_or_odd' b with ⟨c, hc | hc⟩
    · subst hc
      obtain ⟨q, q1, q2, hq⟩ := ih c (by omega) (by omega)
      refine ⟨q + 1, by omega, by omega, ?_⟩
      have hq2 : 2 ^ (q + 1) = 2 * 2 ^ q := by rw [Nat.pow_succ]; omega
      have e1 : 2 ^ (w + 1) - 2 * c = 2 * (2 ^ w - c) := by omega
      have e2 : 2 ^ (w + 1) - 2 ^ (q + 1) = 2 * (2 ^ w - 2 ^ q) := by omega
      rw [e1, e2, two_mul_xor, hq]
    · subst hc
      refine ⟨1, by omega, by omega, ?_⟩
      have hcw : c < 2 ^ w := by omega
      have e1 : 2 ^ (w + 1) - (2 * c + 1) = 2 * (2 ^ w - (c + 1)) + 1 := by omega
      have e2 : 2 ^ (w + 1) - 2 ^ 1 = 2 * (2 ^ w - 1) := by omega
      rw [e1, e2, two_mul_succ_xor, xor_complement w c hcw]

set_option maxRecDepth 100000 in
theorem mix_ne_shift_of_form :
    ∀ q : Nat, q < 64 → 1 ≤ q → xs_mix (2 ^ 64 - 2 ^ q) ≠ (2 ^ 64 - 2 ^ q) >>> 26 := by
  decide

theorem mix_cycle_top_bit :
    ¬ (xs_mix (2 ^ 63) ^^^ (2 ^ 63 ^^^ (2 ^ 63 >>> 26)) = 2 ^ 63) := by
  decide

/-- No 64-bit `b` other than 0 satisfies both equations of a two-cycle of zero outputs. -/
theorem no_zero_cycle (b : Nat) (hb0 : 0 < b) (hb : b < 2 ^ 64)
    (e1 : xs_mix (neg64 b) ^^^ (b ^^^ (b >>> 26)) = neg64 b)
    (e2 : xs_mix b ^^^ (neg64 b ^^^ (neg64 b >>> 26)) = b) : False := by
  have hn : neg64 b = 2 ^ 64 - b := by
    unfold neg64 SIZE_MOD
    omega
  rw [hn] at e1 e2
  have hm := mix_of_cycle b (2 ^ 64 - b) e1 e2
  obtain ⟨q, q1, q2, hq⟩ := xor_neg_form 64 b hb0 hb
  rw [hq] at hm
  by_cases h64 : q = 64
  · subst h64
    have hz : b ^^^ (2 ^ 64 - b) = 0 := by
      rw [hq]
      omega
    have hbb : b = 2 ^ 64 - b := Nat.xor_eq_zero.mp hz
    have hb63 : b = 2 ^ 63 := by omega
    have hnb : 2 ^ 64 - b = 2 ^ 63 := by omega
    rw [hnb, hb63] at e1
    exact mix_cycle_top_bit e1
  · exact mix_ne_shift_of_form q (by omega) q1 hm

theorem zero_output_state (st : xorshift128plus_state) (h0 : st.s0 < 2 ^ 64)
    (h1 : st.s1 < 2 ^ 64) (ho : (xorshift128plus_next st).1 = 0) :
    (xorshift128plus_next st).2 = ⟨st.s1, neg64 st.s1⟩ ∧
      xs_mix st.s0 ^^^ (st.s1 ^^^ (st.s1 >>> 26)) = neg64 st.s1 := by
  have hb := (xorshift_state_bounded st h0 h1).2
  rw [xorshift128plus_next_eq] at ho hb ⊢
  simp only at ho hb ⊢
  have hx : xs_mix st.s0 ^^^ (st.s1 ^^^ (st.s1 >>> 26)) = neg64 st.s1 := by
    generalize xs_mix st.s0 ^^^ (st.s1 ^^^ (st.s1 >>> 26)) = x3 at ho hb
    unfold neg64
    unfold SIZE_MOD at ho ⊢
    omega
  exact ⟨by rw [hx], hx⟩

theorem neg64_neg64 (b : Nat) (hb : b < 2 ^ 64) : neg64 (neg64 b) = b := by
  unfold neg64 SIZE_MOD
  omega

theorem neg64_lt (b : Nat) : neg64 b < 2 ^ 64 := by
  unfold neg64 SIZE_MOD
  omega

/-- From a non-zero 128-bit state, three consecutive outputs are never all zero. -/
theorem three_outputs_not_all_zero (st : xorshift128plus_state) (h0 : st.s0 < 2 ^ 64)
    (h1 : st.s1 < 2 ^ 64) (hne : st ≠ ⟨0, 0⟩)
    (o0 : (xorshift128plus_next st).1 = 0)
    (o1 : (xorshift128plus_next (xorshift128plus_next st).2).1 = 0)
    (o2 : (xorshift128plus_next
      (xorshift128plus_next (xorshift128plus_next st).2).2).1 = 0) : False := by
  obtain ⟨s1, _⟩ := zero_output_state st h0 h1 o0
  have hnb := neg64_lt st.s1
  rw [s1] at o1 o2
  obtain ⟨s2, e2⟩ := zero_output_state ⟨st.s1, neg64 st.s1⟩ h1 hnb o1
  simp only at s2 e2
  rw [neg64_neg64 st.s1 h1] at s2 e2
  rw [s2] at o2
  obtain ⟨_, e1⟩ := zero_output_state ⟨neg64 st.s1, st.s1⟩ hnb h1 o2
  simp only at e1
  by_cases hb : st.s1 = 0
  · have hz : (xorshift128plus_next st).2 = ⟨0, 0⟩ := by
      rw [s1, hb]
      decide
    exact xorshift_next_ne_zero st hne hz
  · exact no_zero_cycle st.s1 (by omega) h1 e1 e2

theorem u64_bytes_zero (w : Nat) (hw : w < 2 ^ 64) (h : u64_bytes w = List.replicate 8 0) :
    w = 0 := by
  have e : u64_bytes w = [(w >>> (8 * 0)) % 256, (w >>> (8 * 1)) % 256, (w >>> (8 * 2)) % 256,
      (w >>> (8 * 3)) % 256, (w >>> (8 * 4)) % 256, (w >>> (8 * 5)) % 256,
      (w >>> (8 * 6)) % 256, (w >>> (8 * 7)) % 256] := rfl
  rw [e] at h
  simp only [List.replicate, List.cons.injEq, Nat.shiftRight_eq_div_pow, and_true] at h
  obtain ⟨a0, a1, a2, a3, a4, a5, a6, a7⟩ := h
  norm_num at a0 a1 a2 a3 a4 a5 a6 a7
  omega

theorem rng_after_bounded :
    ∀ (n : Nat) (st : xorshift128plus_state), st.s0 < 2 ^ 64 → st.s1 < 2 ^ 64 →
      (rng_after n st).s0 < 2 ^ 64 ∧ (rng_after n st).s1 < 2 ^ 64 := by
  intro n
  induction n with
  | zero =>
    intro st h0 h1
    exact ⟨h0, h1⟩
  | succ n ih =>
    intro st h0 h1
    obtain ⟨b0, b1⟩ := xorshift_state_bounded st h0 h1
    exact ih _ b0 b1

/-- From a non-zero 128-bit state, the candidate written by `rng_fill32` is not all zero. -/
theorem candidate_ne_zero (st : xorshift128plus_state) (h0 : st.s0 < 2 ^ 64)
    (h1 : st.s1 < 2 ^ 64) (hne : st ≠ ⟨0, 0⟩) :
    (rng_fill32 st).1 ≠ List.replicate 32 0 := by
  intro h
  have hlen : ∀ w, (u64_bytes w).length = 8 := fun w => rfl
  have hout : ∀ s : xorshift128plus_state, (xorshift128plus_next s).1 < 2 ^ 64 := by
    intro s
    rw [xorshift128plus_next_eq]
    exact Nat.mod_lt _ (by unfold SIZE_MOD; norm_num)
  have e : (rng_fill32 st).1
      = u64_bytes (xorshift128plus_next st).1
        ++ (u64_bytes (xorshift128plus_next (xorshift128plus_next st).2).1
        ++ (u64_bytes (xorshift128plus_next
              (xorshift128plus_next (xorshift128plus_next st).2).2).1
        ++ u64_bytes (xorshift128plus_next (xorshift128plus_next
              (xorshift128plus_next (xorshift128plus_next st).2).2).2).1)) := by
    unfold rng_fill32
    simp only [List.append_assoc]
  have r : List.replicate 32 (0 : Nat)
      = List.replicate 8 0 ++ (List.replicate 8 0 ++ (List.replicate 8 0 ++ List.replicate 8 0)) := by
    decide
  rw [e, r] at h
  obtain ⟨a0, h⟩ := List.append_inj h (by rw [hlen]; rfl)
  obtain ⟨a1, h⟩ := List.append_inj h (by rw [hlen]; rfl)
  obtain ⟨a2, _⟩ := List.append_inj h (by rw [hlen]; rfl)
  exact three_outputs_not_all_zero st h0 h1 hne
    (u64_bytes_zero _ (hout _) a0) (u64_bytes_zero _ (hout _) a1) (u64_bytes_zero _ (hout _) a2)

theorem seeded_states_ne_zero (rd : ReadResult) (fd : Int) (g : xorshift128plus_state)
    (hfd : 0 ≤ fd) (hrd : rd.ret = 16) :
    (rng_init_seed rd).2 ≠ ⟨0, 0⟩ ∧ (init_rng_global fd rd g).2 ≠ ⟨0, 0⟩ ∧
      (Xgrind.init_rng_global fd rd g).2 ≠ ⟨0, 0⟩ := by
  have hfd2 : ¬ (fd < 0) := by omega
  have hrd2 : ¬ (rd.ret ≠ 16) := fun h => h hrd
  have hk : (rng_init_seed rd).2 ≠ ⟨0, 0⟩ := by
    unfold rng_init_seed
    rw [if_neg hrd2]
    by_cases hz : rd.w0 = 0 ∧ rd.w1 = 0
    · rw [if_pos hz]
      decide
    · rw [if_neg hz]
      intro h
      exact hz ⟨congrArg xorshift128plus_state.s0 h, congrArg xorshift128plus_state.s1 h⟩
  refine ⟨hk, ?_, ?_⟩
  · unfold init_rng_global
    rw [if_neg hfd2]
    by_cases h0 : (rng_init_seed rd).1 = 0
    · simp only [h0, if_true]
      exact hk
    · simp only [h0, if_false]
      exact hk
  · unfold Xgrind.init_rng_global
    rw [if_neg hfd2, if_neg hrd2]
    by_cases hz : rd.w0 = 0 ∧ rd.w1 = 0
    · rw [if_pos hz, hz.2]
      decide
    · rw [if_neg hz]
      intro h
      exact hz ⟨congrArg xorshift128plus_state.s0 h, congrArg xorshift128plus_state.s1 h⟩

theorem seeded_states_bounded (rd : ReadResult) (fd : Int) (g : xorshift128plus_state)
    (hfd : 0 ≤ fd) (hrd : rd.ret = 16) (hw0 : rd.w0 < 2 ^ 64) (hw1 : rd.w1 < 2 ^ 64) :
    ((init_rng_global fd rd g).2.s0 < 2 ^ 64 ∧ (init_rng_global fd rd g).2.s1 < 2 ^ 64) ∧
      ((Xgrind.init_rng_global fd rd g).2.s0 < 2 ^ 64 ∧
        (Xgrind.init_rng_global fd rd g).2.s1 < 2 ^ 64) := by
  have hfd2 : ¬ (fd < 0) := by omega
  have hrd2 : ¬ (rd.ret ≠ 16) := fun h => h hrd
  have hk : (rng_init_seed rd).2.s0 < 2 ^ 64 ∧ (rng_init_seed rd).2.s1 < 2 ^ 64 := by
    unfold rng_init_seed
    rw [if_neg hrd2]
    by_cases hz : rd.w0 = 0 ∧ rd.w1 = 0
    · rw [if_pos hz]
      decide
    · rw [if_neg hz]
      exact ⟨hw0, hw1⟩
  constructor
  · unfold init_rng_global
    rw [if_neg hfd2]
    by_cases h0 : (rng_init_seed rd).1 = 0
    · simp only [h0, if_true]
      exact hk
    · simp only [h0, if_false]
      exact hk
  · unfold Xgrind.init_rng_global
    rw [if_neg hfd2, if_neg hrd2]
    by_cases hz : rd.w0 = 0 ∧ rd.w1 = 0
    · rw [if_pos hz]
      exact ⟨by norm_num, hw1⟩
    · rw [if_neg hz]
      exact ⟨hw0, hw1⟩

theorem batch_candidates_ne_zero (st : xorshift128plus_state) (h0 : st.s0 < 2 ^ 64)
    (h1 : st.s1 < 2 ^ 64) (hne : st ≠ ⟨0, 0⟩) (n k : Nat) (hk : k < n) :
    (fill_batch n st).1.getD k [] ≠ List.replicate 32 0 := by
  rw [fill_batch_getD n st k hk]
  obtain ⟨b0, b1⟩ := rng_after_bounded (4 * k) st h0 h1
  exact candidate_ne_zero _ b0 b1 (rng_after_ne_zero _ st hne)

/-- C14. The generator never collapses to the all-zero state. The step
`xorshift128plus_next` (the same in both programs) is injective on states and maps
128-bit states to 128-bit states; the all-zero state is a fixed point whose outputs and
candidates are all zero; so for every 128-bit state `(s0, s1) != (0, 0)` the state after
one step, and after any number of steps, is again `!= (0, 0)`, and every candidate
generated from it has a non-zero byte. Hence, started from the state left by the seed
guard of either program after a successful read of a 16-byte seed, every generator state
reached while filling candidates is non-zero, and no candidate of any batch is all zero:
the stream never degenerates to constant zero candidates. -/
theorem generator_never_zero (st : xorshift128plus_state) (rd : ReadResult) (fd : Int)
    (g : xorshift128plus_state) (hst : st ≠ ⟨0, 0⟩) (hs0 : st.s0 < 2 ^ 64)
    (hs1 : st.s1 < 2 ^ 64) (hfd : 0 ≤ fd) (hrd : rd.ret = 16) (hw0 : rd.w0 < 2 ^ 64)
    (hw1 : rd.w1 < 2 ^ 64) :
    (xorshift128plus_next st).2 ≠ ⟨0, 0⟩ ∧
    (∀ a b : xorshift128plus_state,
      (xorshift128plus_next a).2 = (xorshift128plus_next b).2 → a = b) ∧
    (∀ a : xorshift128plus_state, a.s0 < 2 ^ 64 → a.s1 < 2 ^ 64 →
      (xorshift128plus_next a).2.s0 < 2 ^ 64 ∧ (xorshift128plus_next a).2.s1 < 2 ^ 64) ∧
    (xorshift128plus_next ⟨0, 0⟩ = (0, ⟨0, 0⟩) ∧
      rng_fill32 ⟨0, 0⟩ = (List.replicate 32 0, ⟨0, 0⟩)) ∧
    (∀ n, rng_after n st ≠ ⟨0, 0⟩) ∧
    (∀ n, (rng_fill32 (rng_after n st)).1 ≠ List.replicate 32 0) ∧
    (∀ n, rng_after n (rng_init_seed rd).2 ≠ ⟨0, 0⟩) ∧
    (∀ n, rng_after n (init_rng_global fd rd g).2 ≠ ⟨0, 0⟩) ∧
    (∀ n, rng_after n (Xgrind.init_rng_global fd rd g).2 ≠ ⟨0, 0⟩) ∧
    (∀ n m, (fill_batch n (rng_after m (init_rng_global fd rd g).2)).2 ≠ ⟨0, 0⟩) ∧
    (∀ n m, (fill_batch n (rng_after m (Xgrind.init_rng_global fd rd g).2)).2 ≠ ⟨0, 0⟩) ∧
    (∀ n m k, k < n →
      (fill_batch n (rng_after m (init_rng_global fd rd g).2)).1.getD k []
        ≠ List.replicate 32 0) ∧
    (∀ n m k, k < n →
      (fill_batch n (rng_after m (Xgrind.init_rng_global fd rd g).2)).1.getD k []
        ≠ List.replicate 32 0) := by
  obtain ⟨s1, s2, s3⟩ := seeded_states_ne_zero rd fd g hfd hrd
  obtain ⟨⟨k0, k1⟩, ⟨x0, x1⟩⟩ := seeded_states_bounded rd fd g hfd hrd hw0 hw1
  refine ⟨xorshift_next_ne_zero st hst, xorshift_state_injective, xorshift_state_bounded,
    ⟨xorshift_zero_fixed, by decide⟩, fun n => rng_after_ne_zero n st hst, ?_,
    fun n => rng_after_ne_zero n _ s1, fun n => rng_after_ne_zero n _ s2,
    fun n => rng_after_ne_zero n _ s3, ?_, ?_, ?_, ?_⟩
  · intro n
    obtain ⟨b0, b1⟩ := rng_after_bounded n st hs0 hs1
    exact candidate_ne_zero _ b0 b1 (rng_after_ne_zero n st hst)
  · intro n m
    rw [fill_batch_state]
    exact rng_after_ne_zero _ _ (rng_after_ne_zero m _ s2)
  · intro n m
    rw [fill_batch_state]
    exact rng_after_ne_zero _ _ (rng_after_ne_zero m _ s3)
  · intro n m k hk
    obtain ⟨b0, b1⟩ := rng_after_bounded m _ k0 k1
    exact batch_candidates_ne_zero _ b0 b1 (rng_after_ne_zero m _ s2) n k hk
  · intro n m k hk
    obtain ⟨b0, b1⟩ := rng_after_bounded m _ x0 x1
    exact batch_candidates_ne_zero _ b0 b1 (rng_after_ne_zero m _ s3) n k hk

/-- Witness of C14: the state `(1, 0)` and the all-zero seed. -/
theorem generator_never_zero_witness :
    (xorshift128plus_state.mk 1 0 ≠ ⟨0, 0⟩) ∧ (xorshift128plus_state.mk 1 0).s0 < 2 ^ 64 ∧
    (xorshift128plus_state.mk 1 0).s1 < 2 ^ 64 ∧ (0 : Int) ≤ 3 ∧
    (ReadResult.mk 16 0 0).ret = 16 ∧ (ReadResult.mk 16 0 0).w0 < 2 ^ 64 ∧
    (ReadResult.mk 16 0 0).w1 < 2 ^ 64 ∧
    ((xorshift128plus_next ⟨1, 0⟩).2 ≠ ⟨0, 0⟩ ∧
    (∀ a b : xorshift128plus_state,
      (xorshift128plus_next a).2 = (xorshift128plus_next b).2 → a = b) ∧
    (∀ a : xorshift128plus_state, a.s0 < 2 ^ 64 → a.s1 < 2 ^ 64 →
      (xorshift128plus_next a).2.s0 < 2 ^ 64 ∧ (xorshift128plus_next a).2.s1 < 2 ^ 64) ∧
    (xorshift128plus_next ⟨0, 0⟩ = (0, ⟨0, 0⟩) ∧
      rng_fill32 ⟨0, 0⟩ = (List.replicate 32 0, ⟨0, 0⟩)) ∧
    (∀ n, rng_after n ⟨1, 0⟩ ≠ ⟨0, 0⟩) ∧
    (∀ n, (rng_fill32 (rng_after n ⟨1, 0⟩)).1 ≠ List.replicate 32 0) ∧
    (∀ n, rng_after n (rng_init_seed ⟨16, 0, 0⟩).2 ≠ ⟨0, 0⟩) ∧
    (∀ n, rng_after n (init_rng_global 3 ⟨16, 0, 0⟩ ⟨5, 6⟩).2 ≠ ⟨0, 0⟩) ∧
    (∀ n, rng_after n (Xgrind.init_rng_global 3 ⟨16, 0, 0⟩ ⟨5, 6⟩).2 ≠ ⟨0, 0⟩) ∧
    (∀ n m, (fill_batch n (rng_after m (init_rng_global 3 ⟨16, 0, 0⟩ ⟨5, 6⟩).2)).2
      ≠ ⟨0, 0⟩) ∧
    (∀ n m, (fill_batch n (rng_after m (Xgrind.init_rng_global 3 ⟨16, 0, 0⟩ ⟨5, 6⟩).2)).2
      ≠ ⟨0, 0⟩) ∧
    (∀ n m k, k < n →
      (fill_batch n (rng_after m (init_rng_global 3 ⟨16, 0, 0⟩ ⟨5, 6⟩).2)).1.getD k []
        ≠ List.replicate 32 0) ∧
    (∀ n m k, k < n →
      (fill_batch n (rng_after m (Xgrind.init_rng_global 3 ⟨16, 0, 0⟩ ⟨5, 6⟩).2)).1.getD k []
        ≠ List.replicate 32 0)) :=
  ⟨by decide, by decide, by decide, by decide, rfl, by decide, by decide,
    generator_never_zero ⟨1, 0⟩ ⟨16, 0, 0⟩ 3 ⟨5, 6⟩ (by decide) (by decide) (by decide)
      (by decide) rfl (by decide) (by decide)⟩

/-! ## The hash front end -/

/-- C11. `grind_hash` input validation: for every argument string whose length is odd or
not a multiple of 8, `grind_hash_mode` returns exit code 1 (whatever the collaborator, the
environment and the fuel), having written one diagnostic to `stderr` and nothing to
`stdout`; the generator and the collaborator are left untouched: `init_rng_global`,
`gpu_init` and `gpu_shutdown` are not called and no grind is performed. -/
theorem grind_hash_rejects_bad_length {σ : Type}
    (gpu_init : σ → Int × σ)
    (gpu_search_batch : σ → Nat → List (List Nat) → GpuAnswer × σ)
    (gpu_shutdown : σ → σ) (fmt_avg : Nat → Nat → List Nat)
    (fuel : Nat) (env : HashEnv) (hex : List Nat) (w : HashState σ)
    (hbad : hex.length % 2 = 1 ∨ hex.length % 8 ≠ 0) :
    ∃ r, grind_hash_mode gpu_init gpu_search_batch gpu_shutdown fmt_avg fuel env hex w
        = some (1, r) ∧
      r.mem = w.mem ∧ r.stdout = w.stdout ∧ r.grinds = w.grinds ∧
      r.rng_inits = w.rng_inits ∧ r.gpu_inits = w.gpu_inits ∧
      r.gpu_shutdowns = w.gpu_shutdowns ∧ r.stderr.length = w.stderr.length + 1 := by
  unfold grind_hash_mode
  simp only [Nat.and_one_is_mod]
  by_cases h1 : hex.length = 0 ∨ hex.length % 2 ≠ 0
  · rw [if_pos h1]
    exact ⟨_, rfl, rfl, rfl, rfl, rfl, rfl, rfl, by simp⟩
  · rw [if_neg h1]
    have h8 : hex.length % 8 ≠ 0 := by
      rcases hbad with h | h
      · omega
      · exact h
    rw [if_pos h8]
    exact ⟨_, rfl, rfl, rfl, rfl, rfl, rfl, rfl, by simp⟩

/-- Witness of C11: the arguments `abc` (odd length) and `aabbccddaa` (even, not a
multiple of 8). -/
theorem grind_hash_rejects_bad_length_witness :
    ((c_lit "abc").length % 2 = 1 ∨ (c_lit "abc").length % 8 ≠ 0) ∧
    ((c_lit "aabbccddaa").length % 2 = 1 ∨ (c_lit "aabbccddaa").length % 8 ≠ 0) ∧
    (∃ r, grind_hash_mode stub_gpu_init stub_first_candidate stub_gpu_shutdown stub_fmt_avg
          1 stub_env (c_lit "abc") stub_hash_state = some (1, r) ∧
      r.mem = stub_hash_state.mem ∧ r.stdout = stub_hash_state.stdout ∧
      r.grinds = stub_hash_state.grinds ∧ r.rng_inits = stub_hash_state.rng_inits ∧
      r.gpu_inits = stub_hash_state.gpu_inits ∧
      r.gpu_shutdowns = stub_hash_state.gpu_shutdowns ∧
      r.stderr.length = stub_hash_state.stderr.length + 1) ∧
    (∃ r, grind_hash_mode stub_gpu_init stub_first_candidate stub_gpu_shutdown stub_fmt_avg
          1 stub_env (c_lit "aabbccddaa") stub_hash_state = some (1, r) ∧
      r.mem = stub_hash_state.mem ∧ r.stdout = stub_hash_state.stdout ∧
      r.grinds = stub_hash_state.grinds ∧ r.rng_inits = stub_hash_state.rng_inits ∧
      r.gpu_inits = stub_hash_state.gpu_inits ∧
      r.gpu_shutdowns = stub_hash_state.gpu_shutdowns ∧
      r.stderr.length = stub_hash_state.stderr.length + 1) :=
  ⟨by decide, by decide,
    grind_hash_rejects_bad_length stub_gpu_init stub_first_candidate stub_gpu_shutdown
      stub_fmt_avg 1 stub_env (c_lit "abc") stub_hash_state (by decide),
    grind_hash_rejects_bad_length stub_gpu_init stub_first_candidate stub_gpu_shutdown
      stub_fmt_avg 1 stub_env (c_lit "aabbccddaa") stub_hash_state (by decide)⟩

/-- A well-formed argument is ground: with a collaborator that matches the first candidate
of every batch, `grind_hash_mode` on `deadbeef` initialises the generator and the
collaborator once, performs one grind, writes one result line, shuts the collaborator
down once and returns 0. -/
theorem grind_hash_accepts_example :
    (grind_hash_mode stub_gpu_init stub_first_candidate stub_gpu_shutdown stub_fmt_avg
        1 stub_env (c_lit "deadbeef") stub_hash_state).map
      (fun r => (r.1, r.2.stdout.length, r.2.grinds))
      = some (0, 1, 1) ∧
    (grind_hash_mode stub_gpu_init stub_first_candidate stub_gpu_shutdown stub_fmt_avg
        1 stub_env (c_lit "deadbeef") stub_hash_state).map
      (fun r => (r.2.rng_inits, r.2.gpu_inits, r.2.gpu_shutdowns))
      = some (1, 1, 1) := by
  constructor
  · with_unfolding_all decide
  · with_unfolding_all decide

/-- A failed grind leaves two diagnostics: on an input line with a valid target and a
collaborator that reports "not found" with zero attempts, the stream loop of keygrinder
stops with the engine's `GPU error in gpu_search_batch` followed by its own
`grind_for_32bit_value_gpu failed` on `stderr`, and nothing on `stdout`. -/
theorem stream_failed_grind_stderr :
    (grind_stream_loop stub_error_first 1 [c_lit "deadbeef\n", c_lit "00000001\n"]
        ⟨stub_memory, [], [], 0⟩).map
      (fun s => (s.stdout, s.stderr, s.grinds, s.mem.calls))
      = some ([], [c_lit "GPU error in gpu_search_batch\n",
          c_lit "grind_for_32bit_value_gpu failed\n"], 1, 1) := by
  with_unfolding_all decide

end Obscurity
